import Mathlib

/-!
Verification of the store-consistency layer of the chord-craft service
(`src/main.py`): a JSON document holding two collections (`progressions`,
`shapes`), loaded from disk, repaired by a normalization pass
(`get_store` / `normalize_ids` / `normalize_shape_entry`), and mutated by
create / update / delete operations.

JSON values are embedded shallowly as the inductive `Json`; Python dicts
are insertion-ordered association lists with first-match lookup and
replace-in-place update, matching CPython semantics for dicts produced by
`json.load` (which never contain duplicate keys).  JSON numbers are
modelled as integers: no claim depends on float behaviour.  Python
falsiness, hashability (lists and dicts are unhashable), `str()` and
`str.strip()` are modelled explicitly below.  Fallible Python code (the
`TypeError` / `AttributeError` paths the source can actually hit) is
modelled with `Except`.
-/

inductive Json where
  | null : Json
  | bool : Bool → Json
  | num : Int → Json
  | str : String → Json
  | arr : List Json → Json
  | obj : List (String × Json) → Json

mutual

/-- Structural (Python `==` on same-typed JSON values) boolean equality. -/
def jeq : Json → Json → Bool
  | .null, .null => true
  | .bool a, .bool b => a == b
  | .num a, .num b => a == b
  | .str a, .str b => a == b
  | .arr a, .arr b => jeqList a b
  | .obj a, .obj b => jeqObj a b
  | _, _ => false

def jeqList : List Json → List Json → Bool
  | [], [] => true
  | x :: xs, y :: ys => jeq x y && jeqList xs ys
  | _, _ => false

def jeqObj : List (String × Json) → List (String × Json) → Bool
  | [], [] => true
  | (k, v) :: xs, (k2, v2) :: ys => k == k2 && jeq v v2 && jeqObj xs ys
  | _, _ => false

end

theorem jeqList_iff_of (xs ys : List Json)
    (ih : ∀ x ∈ xs, ∀ y, jeq x y = true ↔ x = y) :
    jeqList xs ys = true ↔ xs = ys := by
  induction xs generalizing ys with
  | nil => cases ys <;> simp [jeqList]
  | cons x xs ihx =>
    cases ys with
    | nil => simp [jeqList]
    | cons y ys =>
      simp only [jeqList, Bool.and_eq_true, List.cons.injEq]
      rw [ih x (by simp), ihx ys (fun z hz => ih z (by simp [hz]))]

theorem jeqObj_iff_of (xs ys : List (String × Json))
    (ih : ∀ p ∈ xs, ∀ y, jeq p.2 y = true ↔ p.2 = y) :
    jeqObj xs ys = true ↔ xs = ys := by
  induction xs generalizing ys with
  | nil => cases ys <;> simp [jeqObj]
  | cons p xs ihx =>
    cases ys with
    | nil => cases p; simp [jeqObj]
    | cons q ys =>
      cases p with
      | mk k v =>
        cases q with
        | mk k2 v2 =>
          simp only [jeqObj, Bool.and_eq_true, List.cons.injEq, Prod.mk.injEq,
            beq_iff_eq]
          rw [ih (k, v) (by simp), ihx ys (fun z hz => ih z (by simp [hz]))]
          try tauto

theorem jeq_iff : ∀ (a b : Json), jeq a b = true ↔ a = b := by
  have main : ∀ (n : Nat) (a b : Json), sizeOf a < n → (jeq a b = true ↔ a = b) := by
    intro n
    induction n with
    | zero => intro a b h; exact absurd h (Nat.not_lt_zero _)
    | succ n ih =>
      intro a b h
      cases a with
      | null => cases b <;> simp [jeq]
      | bool x => cases b <;> simp [jeq]
      | num x => cases b <;> simp [jeq]
      | str x => cases b <;> simp [jeq]
      | arr xs =>
        cases b <;> simp only [jeq, Json.arr.injEq] <;> try simp
        rename_i ys
        refine jeqList_iff_of xs ys (fun x hx y => ih x y ?_)
        have h1 := List.sizeOf_lt_of_mem hx
        have h2 : sizeOf (Json.arr xs) = 1 + sizeOf xs := by simp
        omega
      | obj kvs =>
        cases b <;> simp only [jeq, Json.obj.injEq] <;> try simp
        rename_i ys
        refine jeqObj_iff_of kvs ys (fun p hp y => ih p.2 y ?_)
        have h1 := List.sizeOf_lt_of_mem hp
        have h2 : sizeOf (Json.obj kvs) = 1 + sizeOf kvs := by simp
        have h3 : sizeOf p.2 < sizeOf p := by
          cases p with
          | mk k v => simp
        omega
  intro a b
  exact main (sizeOf a + 1) a b (Nat.lt_succ_self _)

instance : DecidableEq Json := fun a b => decidable_of_iff (jeq a b = true) (jeq_iff a b)

/-! ## Python value semantics -/

/-- Python truthiness of a JSON-decoded value (`bool(v)`): `None`, `False`,
`0`, `""`, `[]` and `{}` are falsy. -/
def truthy : Json → Bool
  | .null => false
  | .bool b => b
  | .num n => n != 0
  | .str s => !(s == "")
  | .arr xs => !xs.isEmpty
  | .obj kvs => !kvs.isEmpty

/-- Python hashability of a JSON-decoded value: lists and dicts are
unhashable, so using one as a set element or set-membership operand raises
`TypeError`. -/
def hashable : Json → Bool
  | .arr _ => false
  | .obj _ => false
  | _ => true

/-- Canonical key for Python `==` / hashing among hashable JSON-decoded
values: `bool` is a subclass of `int`, so `True == 1` and `False == 0`. -/
def pyKey : Json → Json
  | .bool b => .num (if b then 1 else 0)
  | v => v

/-- Python `==` between hashable JSON-decoded values. -/
def pyEq (a b : Json) : Bool := jeq (pyKey a) (pyKey b)

/-- Python set membership (`v in s`), with the set modelled as the list of
values added to it. -/
def pyMem (v : Json) : List Json → Bool
  | [] => false
  | w :: ws => pyEq v w || pyMem v ws

/-- No two values of the list are Python-equal (`==`). -/
def pyNodupB : List Json → Bool
  | [] => true
  | v :: ws => !pyMem v ws && pyNodupB ws

/-- Whitespace for Python `str.strip()` (the ASCII whitespace characters
`' '`, `'\t'`, `'\n'`, `'\r'`, `'\x0b'`, `'\x0c'`). -/
def isPyWs (c : Char) : Bool :=
  c == ' ' || c == '\t' || c == '\n' || c == '\r' || c == '\x0b' || c == '\x0c'

/-- Python `str.strip()`: drop leading and trailing whitespace. -/
def pyStrip (s : String) : String :=
  String.mk (((s.toList.dropWhile isPyWs).reverse.dropWhile isPyWs).reverse)

/-- Python `repr` of a string: quote and escape (backslash, the quote
character, and the common control characters); Python prefers single
quotes and switches to double quotes when the string contains `'` but
not `"`. -/
def strEsc (q : Char) (s : String) : String :=
  String.join (s.toList.map (fun c =>
    if c == '\\' then "\\\\"
    else if c == q then "\\" ++ String.mk [q]
    else if c == '\n' then "\\n"
    else if c == '\r' then "\\r"
    else if c == '\t' then "\\t"
    else String.mk [c]))

def strRepr (s : String) : String :=
  if s.contains '\'' && !(s.contains '"') then "\"" ++ strEsc '"' s ++ "\""
  else "'" ++ strEsc '\'' s ++ "'"

mutual

/-- Python `repr` of a JSON-decoded value. -/
def pyRepr : Json → String
  | .null => "None"
  | .bool true => "True"
  | .bool false => "False"
  | .num n => toString n
  | .str s => strRepr s
  | .arr xs => "[" ++ pyReprList xs ++ "]"
  | .obj kvs => "\x7b" ++ pyReprObj kvs ++ "\x7d"

def pyReprList : List Json → String
  | [] => ""
  | [x] => pyRepr x
  | x :: y :: rest => pyRepr x ++ ", " ++ pyReprList (y :: rest)

def pyReprObj : List (String × Json) → String
  | [] => ""
  | [(k, v)] => strRepr k ++ ": " ++ pyRepr v
  | (k, v) :: q :: rest => strRepr k ++ ": " ++ pyRepr v ++ ", " ++ pyReprObj (q :: rest)

end

/-- Python `str(v)` of a JSON-decoded value: the identity on strings,
`repr` otherwise. -/
def pyStr : Json → String
  | .str s => s
  | v => pyRepr v

/-! ## Python dicts (insertion-ordered, as produced by `json.load`) -/

/-- `d.get(k)` / `d[k]`: first-match lookup. -/
def objGet : List (String × Json) → String → Option Json
  | [], _ => none
  | p :: rest, k => if p.1 = k then some p.2 else objGet rest k

/-- `d[k] = v`: replace the value in place at the key's position, append
`(k, v)` if the key is absent. -/
def objSet : List (String × Json) → String → Json → List (String × Json)
  | [], k, v => [(k, v)]
  | p :: rest, k, v => if p.1 = k then (k, v) :: rest else p :: objSet rest k v

/-- The `"id"` value of a record, `none` for non-dict entries. -/
def idOf : Json → Option Json
  | .obj kvs => objGet kvs "id"
  | _ => none

/-- The `"id"` values (`d.get("id")`, so `null` for a dict without one) of
the dict entries of a collection, in order; non-dict entries contribute
nothing. -/
def objIds : List Json → List Json
  | [] => []
  | .obj kvs :: rest => ((objGet kvs "id").getD .null) :: objIds rest
  | _ :: rest => objIds rest

def isObjB : Json → Bool
  | .obj _ => true
  | _ => false

/-! ## Embedding of `src/main.py` -/

/-- The Python exceptions the store layer can actually raise when fed
arbitrary persisted JSON. -/
inductive PyError where
  | typeError
  | attributeError
deriving DecidableEq

/-- Outcome of an endpoint body: `HTTPException(404)` or a Python error
escaping from the handler. -/
inductive ApiError where
  | notFound
  | pyError (e : PyError)
deriving DecidableEq

/-- `generate_id(prefix)`: `f"{prefix}-{uuid.uuid4().hex[:8]}"`. The
stream of `uuid4().hex` draws is the abstract function `u`; `k` counts the
draws made so far by the process. -/
def generate_id (u : Nat → String) (pre : String) (k : Nat) : String :=
  pre ++ "-" ++ (u k).take 8

/-- The placeholder label substituted for a blank chord name. -/
def placeholderChord : String := "無題のコード"

/-- `normalize_shape_entry(entry)`: coerce `entry.get("chord", "")` with
`str(...).strip()`, default a blank result to the placeholder, and write
the result back iff it differs from the stored value.  Returns the new
entry and the `changed` flag. -/
def normalize_shape_entry (kvs : List (String × Json)) : List (String × Json) × Bool :=
  let raw := (objGet kvs "chord").getD (Json.str "")
  let c0 := pyStrip (pyStr raw)
  let chord := if c0 = "" then placeholderChord else c0
  if objGet kvs "chord" = some (Json.str chord) then (kvs, false)
  else (objSet kvs "chord" (Json.str chord), true)

/-- The loop body of `normalize_ids` for one entry: non-dict entries are
skipped; a dict entry whose id is falsy or already seen gets a fresh
generated id; a truthy unhashable id raises `TypeError` at the set
membership test; the final id is added to the seen set and, for the
shapes collection, `normalize_shape_entry` is applied. -/
def normItem (u : Nat → String) (pre : String) (shape : Bool) (seen : List Json)
    (k : Nat) : Json → Except PyError (Json × List Json × Nat × Bool)
  | .obj kvs =>
    let itemId := (objGet kvs "id").getD Json.null
    if truthy itemId = false then
      normFinish shape seen (k + 1) (objSet kvs "id" (.str (generate_id u pre k))) true
    else if hashable itemId = false then .error .typeError
    else if pyMem itemId seen then
      normFinish shape seen (k + 1) (objSet kvs "id" (.str (generate_id u pre k))) true
    else
      normFinish shape seen k kvs false
  | x => .ok (x, seen, k, false)
where
  normFinish (shape : Bool) (seen : List Json) (k : Nat) (kvs : List (String × Json))
      (ch : Bool) : Except PyError (Json × List Json × Nat × Bool) :=
    let fid := (objGet kvs "id").getD Json.null
    let r := if shape then normalize_shape_entry kvs else (kvs, false)
    .ok (Json.obj r.1, seen ++ [fid], k, ch || r.2)

/-- The `for item in data[key]` loop of `normalize_ids`, threading the
seen set, the uuid draw counter and the `changed` flag. -/
def normList (u : Nat → String) (pre : String) (shape : Bool) :
    List Json → List Json → Nat → Except PyError (List Json × List Json × Nat × Bool)
  | [], seen, k => .ok ([], seen, k, false)
  | x :: rest, seen, k =>
    match normItem u pre shape seen k x with
    | .error e => .error e
    | .ok (y, seen1, k1, ch1) =>
      match normList u pre shape rest seen1 k1 with
      | .error e => .error e
      | .ok (ys, seen2, k2, ch2) => .ok (y :: ys, seen2, k2, ch1 || ch2)

/-- `normalize_ids(data, key, prefix, normalizer)` on a dict document:
returns the updated document, the next uuid draw counter and the
`changed` flag.  Mirrors the guard that returns `False` untouched when
the key is absent or not a list. -/
def normalize_ids (u : Nat → String) (k : Nat) (data : List (String × Json))
    (key : String) (pre : String) (shape : Bool) :
    Except PyError (List (String × Json) × Nat × Bool) :=
  match objGet data key with
  | some (.arr xs) =>
    match normList u pre shape xs [] k with
    | .error e => .error e
    | .ok (ys, _, k2, ch) => .ok (objSet data key (.arr ys), k2, ch)
  | _ => .ok (data, k, false)

/-- The `if key not in data or not isinstance(data[key], list)` repair in
`get_store`. -/
def repairKey (kvs : List (String × Json)) (key : String) : List (String × Json) × Bool :=
  match objGet kvs key with
  | some (.arr _) => (kvs, false)
  | _ => (objSet kvs key (.arr []), true)

/-- `get_store()` applied to the loaded document: repair the two
collection keys, then run the id-repair pass over each collection
(`normalize_shape_entry` as the per-entry normalizer for shapes).
On a non-dict document the very first repair statement raises
`TypeError` (string/list indexing with a string key, or `in` on a
non-iterable).  Returns the document, the `changed` flag that decides the
write-back, and the next uuid draw counter. -/
def get_store (u : Nat → String) : Json → Except PyError (Json × Bool × Nat)
  | .obj kvs0 =>
    let r1 := repairKey kvs0 "progressions"
    let r2 := repairKey r1.1 "shapes"
    match normalize_ids u 0 r2.1 "progressions" "prg" false with
    | .error e => .error e
    | .ok (kvs3, k3, chA) =>
      match normalize_ids u k3 kvs3 "shapes" "shape" true with
      | .error e => .error e
      | .ok (kvs4, k4, chB) => .ok (.obj kvs4, ((chA || r1.2 || r2.2) || chB), k4)
  | _ => .error .typeError

/-- The three states the backing file can be in. -/
inductive FileState where
  | absent
  | unparseable
  | parsed (v : Json)

/-- The empty default document. -/
def emptyDoc : Json := Json.obj [("progressions", .arr []), ("shapes", .arr [])]

/-- `load_data()`: the parsed JSON value if the file exists and parses,
the empty default on a missing file or a `json.JSONDecodeError`. -/
def load_data : FileState → Json
  | .absent => emptyDoc
  | .unparseable => emptyDoc
  | .parsed v => v

/-! ## Request payloads (already validated by pydantic/FastAPI) -/

structure ScaleInfo where
  key : String
  mode : String
deriving DecidableEq

structure Chord where
  root : String
  quality : String
  label : String
  bass : Option String
deriving DecidableEq

structure ProgressionCreate where
  name : String
  scale : ScaleInfo
  chords : List Chord
deriving DecidableEq

structure Diagram where
  startFret : Int
  frets : List Int
deriving DecidableEq

structure ChordShapePayload where
  chord : String
  position : Option String
  diagram : Diagram
deriving DecidableEq

def ScaleInfo.toDict (s : ScaleInfo) : Json :=
  .obj [("key", .str s.key), ("mode", .str s.mode)]

def Chord.toDict (c : Chord) : Json :=
  .obj [("root", .str c.root), ("quality", .str c.quality), ("label", .str c.label),
    ("bass", c.bass.elim Json.null Json.str)]

def Diagram.toDict (d : Diagram) : Json :=
  .obj [("startFret", .num d.startFret), ("frets", .arr (d.frets.map Json.num))]

/-- `Progression(id=..., name=..., scale=..., chords=...).dict()`, fields
in pydantic declaration order. -/
def progressionDict (pid : String) (p : ProgressionCreate) : Json :=
  .obj [("id", .str pid), ("name", .str p.name), ("scale", p.scale.toDict),
    ("chords", .arr (p.chords.map Chord.toDict))]

/-- `payload.chord.strip() or "無題のコード"` on shape create/update. -/
def fixChord (s : String) : String :=
  if pyStrip s = "" then placeholderChord else pyStrip s

/-- `ChordShape(id=..., chord=..., position=..., diagram=...).dict()`,
inherited payload fields first as pydantic orders them. -/
def shapeDict (sid : String) (chord : String) (position : Option String)
    (diagram : Diagram) : Json :=
  .obj [("chord", .str chord), ("position", position.elim Json.null Json.str),
    ("diagram", diagram.toDict), ("id", .str sid)]

/-! ## Endpoint bodies -/

/-- The `for idx, existing in enumerate(...)` scan of the update handlers:
replace the first record whose `existing.get("id")` equals the path id
with `newRec`; a non-dict entry reached by the scan raises
`AttributeError` (`.get` on a non-dict). -/
def scanReplace (rid : String) (newRec : Json) :
    List Json → Except PyError (Option (List Json))
  | [] => .ok none
  | .obj kvs :: rest =>
    if (objGet kvs "id").getD Json.null = Json.str rid then .ok (some (newRec :: rest))
    else
      match scanReplace rid newRec rest with
      | .error e => .error e
      | .ok none => .ok none
      | .ok (some ys) => .ok (some (.obj kvs :: ys))
  | _ :: _ => .error .attributeError

/-- Shared shape of `update_progression` / `update_shape` on the already
normalized collection: replace in place and return the new record, or
404 when the scan finds no match. -/
def updateBody (xs : List Json) (rid : String) (newRec : Json) :
    Except ApiError (List Json × Json) :=
  match scanReplace rid newRec xs with
  | .error e => .error (.pyError e)
  | .ok (some ys) => .ok (ys, newRec)
  | .ok none => .error .notFound

/-- `update_progression` on the normalized collection. -/
def update_progression_body (xs : List Json) (pid : String) (payload : ProgressionCreate) :
    Except ApiError (List Json × Json) :=
  updateBody xs pid (progressionDict pid payload)

/-- `update_shape` on the normalized collection. -/
def update_shape_body (xs : List Json) (sid : String) (payload : ChordShapePayload) :
    Except ApiError (List Json × Json) :=
  updateBody xs sid (shapeDict sid (fixChord payload.chord) payload.position payload.diagram)

/-- The `[p for p in ... if p.get("id") != rid]` comprehension of the
delete handlers; a non-dict entry anywhere raises `AttributeError`. -/
def deleteFilter (rid : String) : List Json → Except PyError (List Json)
  | [] => .ok []
  | .obj kvs :: rest =>
    match deleteFilter rid rest with
    | .error e => .error e
    | .ok ys =>
      if (objGet kvs "id").getD Json.null = Json.str rid then .ok ys
      else .ok (.obj kvs :: ys)
  | _ :: _ => .error .attributeError

/-- Shared shape of `delete_progression` / `delete_shape` on the already
normalized collection: 404 when the filter removed nothing. -/
def deleteBody (xs : List Json) (rid : String) : Except ApiError (List Json) :=
  match deleteFilter rid xs with
  | .error e => .error (.pyError e)
  | .ok ys => if ys.length = xs.length then .error .notFound else .ok ys

/-- The collection stored under `key`, with the convention that a missing
or non-list value reads as the empty collection (what `get_store` repairs
it to). -/
def collOf (d : Json) (key : String) : List Json :=
  match d with
  | .obj kvs =>
    match objGet kvs key with
    | some (.arr xs) => xs
    | _ => []
  | _ => []

/-- `create_shape(payload)`: normalize the store, build the record with a
fresh id and the repaired chord, append it to `shapes`, return the new
document and the record. -/
def create_shape (u : Nat → String) (d : Json) (payload : ChordShapePayload) :
    Except PyError (Json × Json) :=
  match get_store u d with
  | .error e => .error e
  | .ok (data, _, k) =>
    match data with
    | .obj kvs =>
      let rec_ := shapeDict (generate_id u "shape" k) (fixChord payload.chord)
        payload.position payload.diagram
      match objGet kvs "shapes" with
      | some (.arr xs) => .ok (.obj (objSet kvs "shapes" (.arr (xs ++ [rec_]))), rec_)
      | _ => .error .typeError
    | _ => .error .typeError

/-! ## Claim-property checkers -/

def isOkB : Except PyError (Json × Bool × Nat) → Bool
  | .ok _ => true
  | .error _ => false

/-- Evaluate a predicate on the normalized document when the pass
completed; vacuously true when the pass raised. -/
def okOrErr (f : Json → Bool) : Except PyError (Json × Bool × Nat) → Bool
  | .ok t => f t.1
  | .error _ => true

/-- Every dict record of the collection has a truthy id, and the ids are
pairwise distinct under Python `==`. -/
def collIdsOk (xs : List Json) : Bool :=
  (objIds xs).all truthy && pyNodupB (objIds xs)

def idsOkDoc (d : Json) : Bool :=
  collIdsOk (collOf d "progressions") && collIdsOk (collOf d "shapes")

def collPresent (d : Json) (key : String) : Bool :=
  match d with
  | .obj kvs =>
    match objGet kvs key with
    | some (.arr _) => true
    | _ => false
  | _ => false

def structureOkB (d : Json) : Bool :=
  collPresent d "progressions" && collPresent d "shapes"

/-- Every truthy id of the collection is hashable (a truthy unhashable id
is the one way the id pass can raise). -/
def hashIdsOkColl (xs : List Json) : Bool :=
  (objIds xs).all (fun v => !truthy v || hashable v)

def hashIdsOk (d : Json) : Bool :=
  hashIdsOkColl (collOf d "progressions") && hashIdsOkColl (collOf d "shapes")

def totalN (d : Json) : Nat :=
  (collOf d "progressions").length + (collOf d "shapes").length

/-- The Identifier Generator hypothesis of the spec, for one collection:
over the draws the pass can make, suffixes are pairwise distinct and no
generated id equals an id already present in the collection. -/
def FreshColl (u : Nat → String) (pre : String) (N : Nat) (xs : List Json) : Prop :=
  (∀ i, i < N → ∀ j, j < N → i ≠ j → generate_id u pre i ≠ generate_id u pre j) ∧
  (∀ i, i < N → pyMem (Json.str (generate_id u pre i)) (objIds xs) = false)

/-- The Identifier Generator hypothesis for a whole `get_store` pass:
the generator never returns a previously seen id. -/
def GoodGen (u : Nat → String) (d : Json) : Prop :=
  (∀ i, i < totalN d → ∀ j, j < totalN d → i ≠ j →
    generate_id u "prg" i ≠ generate_id u "prg" j) ∧
  (∀ i, i < totalN d → ∀ j, j < totalN d → i ≠ j →
    generate_id u "shape" i ≠ generate_id u "shape" j) ∧
  (∀ i, i < totalN d →
    pyMem (Json.str (generate_id u "prg" i)) (objIds (collOf d "progressions")) = false) ∧
  (∀ i, i < totalN d →
    pyMem (Json.str (generate_id u "shape" i)) (objIds (collOf d "shapes")) = false)

/-- Two dict entries agree on every key outside `excl` (values looked up
on either side coincide). -/
def objAgreeExcept (excl : List String) (a b : List (String × Json)) : Bool :=
  a.all (fun p => excl.contains p.1 || decide (objGet b p.1 = objGet a p.1)) &&
  b.all (fun p => excl.contains p.1 || decide (objGet a p.1 = objGet b p.1))

def frameAgrees (excl : List String) : Json → Json → Bool
  | .obj kvs, .obj kvs2 => objAgreeExcept excl kvs kvs2
  | x, y => decide (y = x)

def frameList (excl : List String) : List Json → List Json → Bool
  | [], [] => true
  | x :: xs, y :: ys => frameAgrees excl x y && frameList excl xs ys
  | _, _ => false

/-- The order/length/field frame of normalization: progrssion records may
change `id` only, shape records `id` and `chord` only, non-dict entries
not at all. -/
def frameDoc (d out : Json) : Bool :=
  frameList ["id"] (collOf d "progressions") (collOf out "progressions") &&
  frameList ["id", "chord"] (collOf d "shapes") (collOf out "shapes")

def collsAreSeqs (d : Json) : Bool :=
  match d with
  | .obj kvs =>
    (match objGet kvs "progressions" with
      | some (.arr _) => true
      | _ => false) &&
    (match objGet kvs "shapes" with
      | some (.arr _) => true
      | _ => false)
  | _ => false

def diagAgrees : Json → Json → Bool
  | .obj kvs, .obj kvs2 => decide (objGet kvs2 "diagram" = objGet kvs "diagram")
  | x, y => decide (y = x)

def diagList : List Json → List Json → Bool
  | [], [] => true
  | x :: xs, y :: ys => diagAgrees x y && diagList xs ys
  | _, _ => false

/-- Every shape record's diagram is untouched by normalization. -/
def diagFrame (d out : Json) : Bool :=
  diagList (collOf d "shapes") (collOf out "shapes")

/-- The claimed shape invariant: `frets` has exactly 6 entries and
`startFret ≥ 1` on every dict record of `shapes`. -/
def diagOkShape : Json → Bool
  | .obj kvs =>
    (match objGet kvs "diagram" with
      | some (.obj dv) =>
        (match objGet dv "frets" with
          | some (.arr l) => l.length == 6
          | _ => false) &&
        (match objGet dv "startFret" with
          | some (.num n) => decide (1 ≤ n)
          | _ => false)
      | _ => false)
  | _ => true

def diagOkDoc (d : Json) : Bool := (collOf d "shapes").all diagOkShape

/-- One checker step of the left-to-right duplicate-repair discipline:
a dict record whose truthy id has not occurred earlier keeps that id; one
whose truthy id occurred earlier ends up with a string id fresh for the
whole input collection; records with falsy ids are unconstrained; a
non-dict entry must be returned unchanged. -/
def firstWinsHead (origIds prior : List Json) : Json → Json → Bool
  | .obj kvs, y =>
    let v := (objGet kvs "id").getD Json.null
    if truthy v && !pyMem v prior then decide (idOf y = some v)
    else if truthy v && pyMem v prior then
      match idOf y with
      | some (.str s) => !pyMem (.str s) origIds
      | _ => false
    else true
  | x, y => decide (y = x)

/-- The truthy original ids of the entries walked so far. -/
def priorStep (prior : List Json) : Json → List Json
  | .obj kvs =>
    prior ++ (if truthy ((objGet kvs "id").getD Json.null)
      then [(objGet kvs "id").getD Json.null] else [])
  | _ => prior

def firstWinsAux (origIds : List Json) (prior : List Json) :
    List Json → List Json → Bool
  | [], [] => true
  | x :: rest, y :: yrest =>
    firstWinsHead origIds prior x y && firstWinsAux origIds (priorStep prior x) rest yrest
  | _, _ => false

/-- The duplicate-repair discipline of C4 for a whole collection. -/
def firstWins (xs ys : List Json) : Bool := firstWinsAux (objIds xs) [] xs ys

instance (u : Nat → String) (pre : String) (N : Nat) (xs : List Json) :
    Decidable (FreshColl u pre N xs) := by
  unfold FreshColl; infer_instance

instance (u : Nat → String) (d : Json) : Decidable (GoodGen u d) := by
  unfold GoodGen; infer_instance

/-- Normalizing the output of a completed pass again: the second pass must
return the same document, report `changed = false` and make no generator
draw.  Vacuously true when the first pass raised. -/
def idemCheck (u u2 : Nat → String) (d : Json) : Bool :=
  match get_store u d with
  | .ok (d1, _, _) =>
    match get_store u2 d1 with
    | .ok (d2, ch, k) => decide (d2 = d1) && (ch == false) && (k == 0)
    | .error _ => false
  | .error _ => true

/-- The duplicate-repair discipline of one collection pass, evaluated on
the pass output; vacuously true when the pass raised. -/
def firstWinsCheck (u : Nat → String) (pre : String) (shape : Bool) (k : Nat)
    (xs : List Json) : Bool :=
  match normList u pre shape xs [] k with
  | .ok (ys, _, _, _) => firstWins xs ys
  | .error _ => true

/-! ## Spec-side reference definitions (from the spec's wording, for the
update / delete contracts) -/

def presentIn (xs : List Json) (rid : String) : Bool :=
  xs.any (fun x => decide (idOf x = some (.str rid)))

/-- From the spec: replace the (first) record with the matching id in
place, leaving position and every other record unchanged. -/
def replaceFirstSpec (rid : String) (newRec : Json) : List Json → List Json
  | [] => []
  | x :: rest =>
    if idOf x = some (.str rid) then newRec :: rest
    else x :: replaceFirstSpec rid newRec rest

/-- From the spec: delete removes the first matching record only. -/
def removeFirstSpec (rid : String) : List Json → List Json
  | [] => []
  | x :: rest =>
    if idOf x = some (.str rid) then rest
    else x :: removeFirstSpec rid rest

/-- Update contract: on a hit, the result is the in-place replacement and
the replacement record is returned; on a miss, a not-found outcome (and
nothing else). -/
def updateCheck (xs : List Json) (rid : String) (newRec : Json) : Bool :=
  match updateBody xs rid newRec with
  | .ok (ys, r) =>
    presentIn xs rid && decide (r = newRec) &&
      decide (ys = replaceFirstSpec rid newRec xs)
  | .error .notFound => !presentIn xs rid
  | .error _ => false

/-- Delete contract: on a hit, exactly the first matching record is
removed (length drops by one); on a miss, the not-found outcome. -/
def deleteCheck (xs : List Json) (rid : String) : Bool :=
  match deleteBody xs rid with
  | .ok ys =>
    presentIn xs rid && decide (ys = removeFirstSpec rid xs) &&
      (ys.length + 1 == xs.length)
  | .error .notFound => !presentIn xs rid
  | .error _ => false

def fieldOf (key : String) : Json → Option Json
  | .obj kvs => objGet kvs key
  | _ => none

/-- The chord value `normalize_shape_entry` establishes: the stripped
string form of the stored value (absent read as `""`), the placeholder
when that is empty. -/
def chordTarget (kvs : List (String × Json)) : String :=
  let raw := (objGet kvs "chord").getD (Json.str "")
  let c0 := pyStrip (pyStr raw)
  if c0 = "" then placeholderChord else c0

/-! ## Concrete inputs for witnesses and counterexamples -/

/-- A concrete uuid-suffix stream whose draws are pairwise distinct (for
the small bounds the witnesses need) and never collide with the ids of
the witness documents. -/
def u0 : Nat → String := fun k => toString k

/-- A document with a duplicated id, a blank id and a non-dict entry. -/
def docDup : Json :=
  .obj [("progressions", .arr [.obj [("id", .str "a"), ("name", .str "x")],
      .obj [("id", .str "a")]]),
    ("shapes", .arr [.obj [("id", .str ""), ("chord", .str " C ")], .num 7])]

/-- A document whose single shape violates the claimed diagram bounds:
`frets` has 3 entries and `startFret` is 0. -/
def docBadDiag : Json :=
  .obj [("progressions", .arr []),
    ("shapes", .arr [.obj [("id", .str "s1"), ("chord", .str "C"),
      ("diagram", .obj [("startFret", .num 0), ("frets", .arr [.num 1, .num 2, .num 3])])]])]

/-- A collection state containing a non-dict entry in front of a real
record (reachable: normalization keeps non-dict entries). -/
def junkColl : List Json :=
  [Json.str "junk", Json.obj [("id", Json.str "x"), ("chord", Json.str "C")]]

/-- A dict document missing the `shapes` key, with a numeric id. -/
def docPartialKvs : List (String × Json) :=
  [("progressions", .arr [.obj [("id", .num 3)]])]

/-! ## Basic lemmas -/

theorem jeq_eq_decide (a b : Json) : jeq a b = decide (a = b) := by
  by_cases h : a = b
  · subst h; simp [(jeq_iff a a).2 rfl]
  · rw [decide_eq_false h]
    cases hj : jeq a b with
    | false => rfl
    | true => exact absurd ((jeq_iff a b).1 hj) h

theorem pyEq_eq_decide (a b : Json) : pyEq a b = decide (pyKey a = pyKey b) := by
  unfold pyEq; exact jeq_eq_decide _ _

theorem pyEq_refl (a : Json) : pyEq a a = true := by
  simp [pyEq_eq_decide]

theorem pyEq_comm (a b : Json) : pyEq a b = pyEq b a := by
  simp [pyEq_eq_decide, eq_comm]

theorem pyMem_append (v : Json) (as bs : List Json) :
    pyMem v (as ++ bs) = (pyMem v as || pyMem v bs) := by
  induction as with
  | nil => simp [pyMem]
  | cons w ws ih => simp [pyMem, ih, Bool.or_assoc]

theorem pyMem_singleton (v w : Json) : pyMem v [w] = pyEq v w := by
  simp [pyMem]

theorem objGet_objSet_self (kvs : List (String × Json)) (k : String) (v : Json) :
    objGet (objSet kvs k v) k = some v := by
  induction kvs with
  | nil => simp [objSet, objGet]
  | cons p rest ih =>
    by_cases h : p.1 = k
    · simp [objSet, objGet, h]
    · simp [objSet, objGet, h, ih]

theorem objGet_objSet_ne (kvs : List (String × Json)) (k k2 : String) (v : Json)
    (h : k2 ≠ k) : objGet (objSet kvs k v) k2 = objGet kvs k2 := by
  induction kvs with
  | nil => simp [objSet, objGet, Ne.symm h]
  | cons p rest ih =>
    by_cases hp : p.1 = k
    · subst hp
      simp [objSet, objGet, Ne.symm h]
    · by_cases hp2 : p.1 = k2
      · simp [objSet, objGet, hp, hp2, h]
      · simp [objSet, objGet, hp, hp2, ih]

theorem objSet_of_objGet (kvs : List (String × Json)) (k : String) (v : Json)
    (h : objGet kvs k = some v) : objSet kvs k v = kvs := by
  induction kvs with
  | nil => simp [objGet] at h
  | cons p rest ih =>
    by_cases hp : p.1 = k
    · simp only [objGet, hp, if_pos] at h
      cases p with
      | mk pk pv =>
        simp only at hp
        simp only [Option.some.injEq] at h
        simp [objSet, hp, h]
    · simp only [objGet, hp, if_neg, ite_false] at h
      simp [objSet, hp, ih h]

theorem pyStrip_toList (s : String) :
    pyStrip s = String.mk (List.rdropWhile isPyWs (s.toList.dropWhile isPyWs)) := by
  rfl

theorem dropWhile_eq_self_of_front (p : Char → Bool) (A B : List Char)
    (hpre : B <+: A) (hA : A.dropWhile p = A) : B.dropWhile p = B := by
  rw [List.dropWhile_eq_self_iff] at hA ⊢
  intro hl
  obtain ⟨t, rfl⟩ := hpre
  have hlen : 0 < (B ++ t).length := by simp; omega
  have := hA hlen
  rw [List.get_append 0 hl] at this
  exact this

theorem pyStrip_idem (s : String) : pyStrip (pyStrip s) = pyStrip s := by
  rw [pyStrip_toList, pyStrip_toList]
  have htl : ∀ l : List Char, (String.mk l).toList = l := fun l => rfl
  rw [htl]
  have hA : (s.toList.dropWhile isPyWs).dropWhile isPyWs = s.toList.dropWhile isPyWs :=
    List.dropWhile_idempotent _ _
  have hpre : List.rdropWhile isPyWs (s.toList.dropWhile isPyWs) <+:
      s.toList.dropWhile isPyWs := List.rdropWhile_prefix _ _
  rw [dropWhile_eq_self_of_front isPyWs _ _ hpre hA, List.rdropWhile_idempotent]

theorem pyStrip_placeholder : pyStrip placeholderChord = placeholderChord := by decide

/-! ## normalize_shape_entry lemmas -/

theorem nse_eq (kvs : List (String × Json)) :
    normalize_shape_entry kvs =
      if objGet kvs "chord" = some (Json.str (chordTarget kvs)) then (kvs, false)
      else (objSet kvs "chord" (Json.str (chordTarget kvs)), true) := rfl

theorem nse_chord (kvs : List (String × Json)) :
    objGet (normalize_shape_entry kvs).1 "chord" = some (Json.str (chordTarget kvs)) := by
  rw [nse_eq]
  split
  · next h => simpa using h
  · simp [objGet_objSet_self]

theorem nse_get_ne (kvs : List (String × Json)) (key : String) (h : key ≠ "chord") :
    objGet (normalize_shape_entry kvs).1 key = objGet kvs key := by
  rw [nse_eq]
  split
  · rfl
  · simp [objGet_objSet_ne _ _ _ _ h]

theorem chordTarget_ne_empty (kvs : List (String × Json)) : chordTarget kvs ≠ "" := by
  unfold chordTarget
  by_cases h : pyStrip (pyStr ((objGet kvs "chord").getD (Json.str ""))) = ""
  · simp only [h, if_pos]
    decide
  · simp only [h, if_neg, ite_false]
    exact h

theorem chordTarget_strip (kvs : List (String × Json)) :
    pyStrip (chordTarget kvs) = chordTarget kvs := by
  unfold chordTarget
  by_cases h : pyStrip (pyStr ((objGet kvs "chord").getD (Json.str ""))) = ""
  · simp [h, pyStrip_placeholder]
  · simp [h, pyStrip_idem]

theorem nse_nochange (kvs : List (String × Json))
    (h : objGet kvs "chord" = some (Json.str (chordTarget kvs))) :
    normalize_shape_entry kvs = (kvs, false) := by
  rw [nse_eq, if_pos h]

/-! ## normItem lemmas -/

theorem generate_id_ne_empty (u : Nat → String) (pre : String) (k : Nat) :
    ¬ generate_id u pre k = "" := by
  intro hc
  have := congrArg String.length hc
  simp [generate_id, String.length_append] at this
  exact absurd this.1.2 (by decide)

theorem generate_id_truthy (u : Nat → String) (pre : String) (k : Nat) :
    truthy (.str (generate_id u pre k)) = true := by
  simp [truthy, generate_id_ne_empty u pre k]

theorem normItem_nonobj (u : Nat → String) (pre : String) (shape : Bool)
    (seen : List Json) (k : Nat) (x : Json) (h : isObjB x = false) :
    normItem u pre shape seen k x = .ok (x, seen, k, false) := by
  cases x <;> simp_all [isObjB, normItem]

theorem normFinish_eq (shape : Bool) (seen : List Json) (k : Nat)
    (kvs : List (String × Json)) (ch : Bool) :
    normItem.normFinish shape seen k kvs ch =
      .ok (.obj (if shape then (normalize_shape_entry kvs).1 else kvs),
        seen ++ [(objGet kvs "id").getD Json.null], k,
        ch || (if shape then (normalize_shape_entry kvs).2 else false)) := by
  cases shape <;> rfl

theorem normItem_obj_ok (u : Nat → String) (pre : String) (shape : Bool)
    (seen : List Json) (k : Nat) (kvs : List (String × Json)) (y : Json)
    (seen1 : List Json) (k1 : Nat) (ch1 : Bool)
    (h : normItem u pre shape seen k (.obj kvs) = .ok (y, seen1, k1, ch1)) :
    ∃ kvs', y = .obj (if shape then (normalize_shape_entry kvs').1 else kvs') ∧
      seen1 = seen ++ [(objGet kvs' "id").getD Json.null] ∧
      ((kvs' = kvs ∧ k1 = k ∧
          truthy ((objGet kvs "id").getD Json.null) = true ∧
          hashable ((objGet kvs "id").getD Json.null) = true ∧
          pyMem ((objGet kvs "id").getD Json.null) seen = false) ∨
        (kvs' = objSet kvs "id" (.str (generate_id u pre k)) ∧ k1 = k + 1)) := by
  simp only [normItem] at h
  by_cases h1 : truthy ((objGet kvs "id").getD Json.null) = false
  · rw [if_pos h1, normFinish_eq] at h
    simp only [Except.ok.injEq, Prod.mk.injEq] at h
    obtain ⟨hy, hseen, hk, _⟩ := h
    exact ⟨_, hy.symm, hseen.symm, Or.inr ⟨rfl, hk.symm⟩⟩
  · rw [if_neg h1] at h
    by_cases h2 : hashable ((objGet kvs "id").getD Json.null) = false
    · rw [if_pos h2] at h
      exact absurd h (by simp)
    · rw [if_neg h2] at h
      by_cases h3 : pyMem ((objGet kvs "id").getD Json.null) seen = true
      · rw [if_pos h3, normFinish_eq] at h
        simp only [Except.ok.injEq, Prod.mk.injEq] at h
        obtain ⟨hy, hseen, hk, _⟩ := h
        exact ⟨_, hy.symm, hseen.symm, Or.inr ⟨rfl, hk.symm⟩⟩
      · rw [if_neg h3, normFinish_eq] at h
        simp only [Except.ok.injEq, Prod.mk.injEq] at h
        obtain ⟨hy, hseen, hk, _⟩ := h
        refine ⟨kvs, hy.symm, hseen.symm, Or.inl ⟨rfl, hk.symm, ?_, ?_, ?_⟩⟩
        · simpa using h1
        · simpa using h2
        · simpa using h3

/-! ## normList: the id-repair invariant -/

theorem objIds_cons_obj (kvs : List (String × Json)) (rest : List Json) :
    objIds (.obj kvs :: rest) = ((objGet kvs "id").getD .null) :: objIds rest := rfl

theorem objIds_cons_nonobj (x : Json) (rest : List Json) (h : isObjB x = false) :
    objIds (x :: rest) = objIds rest := by
  cases x <;> simp_all [objIds, isObjB]

theorem pyMem_cons (v w : Json) (ws : List Json) :
    pyMem v (w :: ws) = (pyEq v w || pyMem v ws) := rfl

theorem pyMem_false_of_all (v : Json) (l : List Json)
    (h : ∀ w ∈ l, pyEq w v = false) : pyMem v l = false := by
  induction l with
  | nil => rfl
  | cons w ws ih =>
    have h1 : pyEq v w = false := by rw [pyEq_comm]; exact h w (List.mem_cons_self _ _)
    have h2 := ih (fun z hz => h z (List.mem_cons_of_mem _ hz))
    simp [pyMem_cons, h1, h2]

theorem pyEq_str (a b : String) : pyEq (.str a) (.str b) = (a == b) := rfl

theorem normOut_id (shape : Bool) (kvs : List (String × Json)) :
    objGet (if shape then (normalize_shape_entry kvs).1 else kvs) "id" = objGet kvs "id" := by
  cases shape
  · rfl
  · simpa using nse_get_ne kvs "id" (by decide)

theorem normList_nil (u : Nat → String) (pre : String) (shape : Bool)
    (seen : List Json) (k : Nat) :
    normList u pre shape [] seen k = .ok ([], seen, k, false) := rfl

theorem normList_cons (u : Nat → String) (pre : String) (shape : Bool) (x : Json)
    (rest seen : List Json) (k : Nat) :
    normList u pre shape (x :: rest) seen k =
      match normItem u pre shape seen k x with
      | .error e => .error e
      | .ok (y, seen1, k1, ch1) =>
        match normList u pre shape rest seen1 k1 with
        | .error e => .error e
        | .ok (ys, seen2, k2, ch2) => .ok (y :: ys, seen2, k2, ch1 || ch2) := rfl

theorem normList_spec (u : Nat → String) (pre : String) (shape : Bool) (N : Nat)
    (hinj : ∀ i, i < N → ∀ j, j < N → i ≠ j →
      generate_id u pre i ≠ generate_id u pre j) :
    ∀ (xs seen : List Json) (k : Nat) (ys seen2 : List Json) (k2 : Nat) (ch : Bool),
      (∀ i, k ≤ i → i < N → pyMem (Json.str (generate_id u pre i)) seen = false) →
      (∀ i, k ≤ i → i < N → pyMem (Json.str (generate_id u pre i)) (objIds xs) = false) →
      k + xs.length ≤ N →
      normList u pre shape xs seen k = .ok (ys, seen2, k2, ch) →
      (k ≤ k2 ∧ k2 ≤ k + xs.length) ∧
      seen2 = seen ++ objIds ys ∧
      (∀ v ∈ objIds ys, truthy v = true ∧ hashable v = true ∧ pyMem v seen = false) ∧
      pyNodupB (objIds ys) = true := by
  intro xs
  induction xs with
  | nil =>
    intro seen k ys seen2 k2 ch _ _ _ h
    rw [normList_nil] at h
    simp only [Except.ok.injEq, Prod.mk.injEq] at h
    obtain ⟨hys, hseen, hk, _⟩ := h
    subst hys hseen hk
    exact ⟨⟨le_refl _, by simp⟩, by simp [objIds], by simp [objIds], rfl⟩
  | cons x rest ih =>
    intro seen k ys seen2 k2 ch Hseen Hids Hbound h
    rw [normList_cons] at h
    cases hitem : normItem u pre shape seen k x with
    | error e => rw [hitem] at h; exact absurd h (by simp)
    | ok t =>
      obtain ⟨y, seen1, k1, ch1⟩ := t
      rw [hitem] at h
      dsimp only at h
      cases hrest : normList u pre shape rest seen1 k1 with
      | error e => rw [hrest] at h; exact absurd h (by simp)
      | ok t2 =>
        obtain ⟨ys2, seenR, kR, chR⟩ := t2
        rw [hrest] at h
        dsimp only at h
        simp only [Except.ok.injEq, Prod.mk.injEq] at h
        obtain ⟨hys, hseen2, hk2, hch⟩ := h
        subst hys hseen2 hk2
        by_cases hobj : isObjB x = true
        · -- dict entry
          have hx : ∃ kvs, x = .obj kvs := by
            cases x <;> simp [isObjB] at hobj <;> exact ⟨_, rfl⟩
          obtain ⟨kvs, rfl⟩ := hx
          obtain ⟨kvs', hy, hseen1, hcase⟩ :=
            normItem_obj_ok u pre shape seen k kvs y seen1 k1 ch1 hitem
          have hkN : k < N := by simp at Hbound; omega
          have hyid : objIds (y :: ys2) =
              ((objGet kvs' "id").getD Json.null) :: objIds ys2 := by
            subst hy; rw [objIds_cons_obj, normOut_id]
          have hfidfacts :
              truthy ((objGet kvs' "id").getD Json.null) = true ∧
              hashable ((objGet kvs' "id").getD Json.null) = true ∧
              pyMem ((objGet kvs' "id").getD Json.null) seen = false ∧
              (k ≤ k1 ∧ k1 ≤ k + 1) := by
            rcases hcase with ⟨hkv, hk1, ht, hh, hm⟩ | ⟨hkv, hk1⟩
            · subst hkv hk1; exact ⟨ht, hh, hm, le_refl _, by omega⟩
            · subst hkv hk1
              have hv : (objGet (objSet kvs "id" (.str (generate_id u pre k))) "id").getD
                  Json.null = .str (generate_id u pre k) := by
                rw [objGet_objSet_self]; rfl
              rw [hv]
              exact ⟨generate_id_truthy u pre k, rfl, Hseen k (le_refl _) hkN,
                by omega, by omega⟩
          obtain ⟨hfT, hfH, hfS, hk1a, hk1b⟩ := hfidfacts
          -- the new id is never Python-equal to a later generator draw
          have hfreshne : ∀ i, k1 ≤ i → i < N →
              pyEq (Json.str (generate_id u pre i)) ((objGet kvs' "id").getD Json.null)
                = false := by
            intro i h1 h2
            rcases hcase with ⟨hkv, hk1, _, _, _⟩ | ⟨hkv, hk1⟩
            · subst hkv
              have hm := Hids i (by omega) h2
              rw [objIds_cons_obj, pyMem_cons] at hm
              simp only [Bool.or_eq_false_iff] at hm
              exact hm.1
            · subst hkv
              have hv : (objGet (objSet kvs "id" (.str (generate_id u pre k))) "id").getD
                  Json.null = .str (generate_id u pre k) := by
                rw [objGet_objSet_self]; rfl
              rw [hv, pyEq_str]
              simpa using hinj i h2 k hkN (by omega)
          have HseenR : ∀ i, k1 ≤ i → i < N →
              pyMem (Json.str (generate_id u pre i)) seen1 = false := by
            intro i h1 h2
            rw [hseen1, pyMem_append, pyMem_singleton]
            simp only [Bool.or_eq_false_iff]
            exact ⟨Hseen i (by omega) h2, hfreshne i h1 h2⟩
          have HidsR : ∀ i, k1 ≤ i → i < N →
              pyMem (Json.str (generate_id u pre i)) (objIds rest) = false := by
            intro i h1 h2
            have hm := Hids i (by omega) h2
            rw [objIds_cons_obj, pyMem_cons] at hm
            simp only [Bool.or_eq_false_iff] at hm
            exact hm.2
          have HboundR : k1 + rest.length ≤ N := by simp at Hbound; omega
          obtain ⟨⟨hka, hkb⟩, hseq, hvs, hnd⟩ :=
            ih seen1 k1 ys2 seenR kR chR HseenR HidsR HboundR hrest
          refine ⟨⟨by omega, by simp; omega⟩, ?_, ?_, ?_⟩
          · rw [hseq, hseen1, hyid]; simp
          · rw [hyid]
            intro v hv
            rcases List.mem_cons.mp hv with hv | hv
            · subst hv; exact ⟨hfT, hfH, hfS⟩
            · obtain ⟨ht, hh, hm⟩ := hvs v hv
              rw [hseen1, pyMem_append] at hm
              simp only [Bool.or_eq_false_iff] at hm
              exact ⟨ht, hh, hm.1⟩
          · rw [hyid]
            simp only [pyNodupB, Bool.and_eq_true, Bool.not_eq_true']
            refine ⟨pyMem_false_of_all _ _ ?_, hnd⟩
            intro w hw
            have hm := (hvs w hw).2.2
            rw [hseen1, pyMem_append, pyMem_singleton] at hm
            simp only [Bool.or_eq_false_iff] at hm
            exact hm.2
        · -- non-dict entry: skipped
          have hxo : isObjB x = false := by simpa using hobj
          have hni := normItem_nonobj u pre shape seen k x hxo
          rw [hni] at hitem
          simp only [Except.ok.injEq, Prod.mk.injEq] at hitem
          obtain ⟨hxy, hs1, hk1, _⟩ := hitem
          subst hxy hs1 hk1
          have e1 : objIds (x :: ys2) = objIds ys2 := objIds_cons_nonobj x ys2 hxo
          have e2 : objIds (x :: rest) = objIds rest := objIds_cons_nonobj x rest hxo
          have HidsR : ∀ i, k ≤ i → i < N →
              pyMem (Json.str (generate_id u pre i)) (objIds rest) = false := by
            intro i h1 h2; rw [← e2]; exact Hids i h1 h2
          have HboundR : k + rest.length ≤ N := by simp at Hbound; omega
          obtain ⟨⟨hka, hkb⟩, hseq, hvs, hnd⟩ :=
            ih seen k ys2 seenR kR chR Hseen HidsR HboundR hrest
          exact ⟨⟨hka, by simp; omega⟩, by rw [e1]; exact hseq,
            by rw [e1]; exact hvs, by rw [e1]; exact hnd⟩

/-! ## get_store assembly lemmas -/

theorem repairKey_get (kvs : List (String × Json)) (key : String) :
    objGet (repairKey kvs key).1 key = some (.arr (collOf (.obj kvs) key)) := by
  unfold repairKey collOf
  cases h : objGet kvs key with
  | none => simp [h, objGet_objSet_self]
  | some v => cases v <;> simp [h, objGet_objSet_self]

theorem repairKey_get_ne (kvs : List (String × Json)) (key key2 : String)
    (h : key2 ≠ key) : objGet (repairKey kvs key).1 key2 = objGet kvs key2 := by
  unfold repairKey
  cases hg : objGet kvs key with
  | none => simp [objGet_objSet_ne _ _ _ _ h]
  | some v => cases v <;> simp [objGet_objSet_ne _ _ _ _ h]

theorem normalize_ids_eq (u : Nat → String) (k : Nat) (data : List (String × Json))
    (key : String) (pre : String) (shape : Bool) (xs : List Json)
    (h : objGet data key = some (.arr xs)) :
    normalize_ids u k data key pre shape =
      match normList u pre shape xs [] k with
      | .error e => .error e
      | .ok (ys, _, k2, ch) => .ok (objSet data key (.arr ys), k2, ch) := by
  unfold normalize_ids
  rw [h]

theorem get_store_ok (u : Nat → String) (kvs0 : List (String × Json)) (out : Json)
    (ch : Bool) (kOut : Nat) (h : get_store u (.obj kvs0) = .ok (out, ch, kOut)) :
    ∃ ysP ysS seenP seenS kP chP chS,
      normList u "prg" false (collOf (.obj kvs0) "progressions") [] 0
        = .ok (ysP, seenP, kP, chP) ∧
      normList u "shape" true (collOf (.obj kvs0) "shapes") [] kP
        = .ok (ysS, seenS, kOut, chS) ∧
      collOf out "progressions" = ysP ∧ collOf out "shapes" = ysS ∧
      structureOkB out = true ∧
      out = .obj (objSet (objSet (repairKey (repairKey kvs0 "progressions").1 "shapes").1
        "progressions" (.arr ysP)) "shapes" (.arr ysS)) := by
  unfold get_store at h
  dsimp only at h
  have hP : objGet (repairKey (repairKey kvs0 "progressions").1 "shapes").1 "progressions"
      = some (.arr (collOf (.obj kvs0) "progressions")) := by
    rw [repairKey_get_ne _ _ _ (by decide), repairKey_get]
  have hS : objGet (repairKey (repairKey kvs0 "progressions").1 "shapes").1 "shapes"
      = some (.arr (collOf (.obj kvs0) "shapes")) := by
    rw [repairKey_get]
    have h2 : collOf (.obj (repairKey kvs0 "progressions").1) "shapes"
        = collOf (.obj kvs0) "shapes" := by
      unfold collOf
      dsimp only
      rw [repairKey_get_ne _ _ _ (by decide)]
    rw [h2]
  rw [normalize_ids_eq u 0 _ "progressions" "prg" false _ hP] at h
  cases hnP : normList u "prg" false (collOf (.obj kvs0) "progressions") [] 0 with
  | error e => rw [hnP] at h; exact absurd h (by simp)
  | ok tP =>
    obtain ⟨ysP, seenP, kP, chP⟩ := tP
    rw [hnP] at h
    dsimp only at h
    have hS3 : objGet (objSet (repairKey (repairKey kvs0 "progressions").1 "shapes").1
        "progressions" (.arr ysP)) "shapes" = some (.arr (collOf (.obj kvs0) "shapes")) := by
      rw [objGet_objSet_ne _ _ _ _ (by decide)]
      exact hS
    rw [normalize_ids_eq u kP _ "shapes" "shape" true _ hS3] at h
    cases hnS : normList u "shape" true (collOf (.obj kvs0) "shapes") [] kP with
    | error e => rw [hnS] at h; exact absurd h (by simp)
    | ok tS =>
      obtain ⟨ysS, seenS, kS, chS⟩ := tS
      rw [hnS] at h
      dsimp only at h
      simp only [Except.ok.injEq, Prod.mk.injEq] at h
      obtain ⟨hout, _, hk⟩ := h
      subst hk
      refine ⟨ysP, ysS, seenP, seenS, kP, chP, chS, rfl, hnS, ?_, ?_, ?_, hout.symm⟩
      · rw [← hout]
        unfold collOf
        dsimp only
        rw [objGet_objSet_ne _ "shapes" "progressions" _ (by decide), objGet_objSet_self]
      · rw [← hout]
        unfold collOf
        dsimp only
        rw [objGet_objSet_self]
      · rw [← hout]
        unfold structureOkB collPresent
        dsimp only
        rw [objGet_objSet_ne _ "shapes" "progressions" _ (by decide), objGet_objSet_self,
          objGet_objSet_self]
        rfl

theorem normItem_total (u : Nat → String) (pre : String) (shape : Bool)
    (seen : List Json) (k : Nat) (x : Json)
    (hx : ∀ kvs, x = .obj kvs →
      truthy ((objGet kvs "id").getD Json.null) = true →
      hashable ((objGet kvs "id").getD Json.null) = true) :
    ∃ r, normItem u pre shape seen k x = .ok r := by
  cases x with
  | obj kvs =>
    simp only [normItem]
    by_cases h1 : truthy ((objGet kvs "id").getD Json.null) = false
    · rw [if_pos h1, normFinish_eq]; exact ⟨_, rfl⟩
    · rw [if_neg h1]
      have h2 : hashable ((objGet kvs "id").getD Json.null) = true :=
        hx kvs rfl (by simpa using h1)
      rw [if_neg (by simp [h2])]
      by_cases h3 : pyMem ((objGet kvs "id").getD Json.null) seen = true
      · rw [if_pos h3, normFinish_eq]; exact ⟨_, rfl⟩
      · rw [if_neg h3, normFinish_eq]; exact ⟨_, rfl⟩
  | null => exact ⟨_, rfl⟩
  | bool b => exact ⟨_, rfl⟩
  | num n => exact ⟨_, rfl⟩
  | str s => exact ⟨_, rfl⟩
  | arr xs => exact ⟨_, rfl⟩

theorem normList_total (u : Nat → String) (pre : String) (shape : Bool) :
    ∀ (xs seen : List Json) (k : Nat),
      (∀ v ∈ objIds xs, truthy v = true → hashable v = true) →
      ∃ r, normList u pre shape xs seen k = .ok r := by
  intro xs
  induction xs with
  | nil => exact fun seen k _ => ⟨_, rfl⟩
  | cons x rest ih =>
    intro seen k hids
    have hx : ∀ kvs, x = .obj kvs →
        truthy ((objGet kvs "id").getD Json.null) = true →
        hashable ((objGet kvs "id").getD Json.null) = true := by
      intro kvs hxe ht
      subst hxe
      exact hids _ (by rw [objIds_cons_obj]; exact List.mem_cons_self _ _) ht
    obtain ⟨⟨y, seen1, k1, ch1⟩, hitem⟩ := normItem_total u pre shape seen k x hx
    have hrest : ∀ v ∈ objIds rest, truthy v = true → hashable v = true := by
      intro v hv
      refine hids v ?_
      cases x with
      | obj kvs => rw [objIds_cons_obj]; exact List.mem_cons_of_mem _ hv
      | null => exact hv
      | bool b => exact hv
      | num n => exact hv
      | str s => exact hv
      | arr l => exact hv
    obtain ⟨⟨ys2, seen2, k2, ch2⟩, hr⟩ := ih seen1 k1 hrest
    exact ⟨(y :: ys2, seen2, k2, ch1 || ch2),
      by rw [normList_cons, hitem]; dsimp only; rw [hr]⟩

/-- C1: for every input document, when the Normalizer pass (`get_store`)
completes, every dict record in each of the two collections carries a
truthy (in particular non-empty) id, and the ids within each collection
are pairwise distinct under Python `==` — under the hypothesis `GoodGen`
that the Identifier Generator never returns a previously seen id. -/
theorem get_store_ids_unique (u : Nat → String) (d : Json) (h : GoodGen u d) :
    okOrErr idsOkDoc (get_store u d) = true := by
  cases d with
  | obj kvs0 =>
    cases hgs : get_store u (.obj kvs0) with
    | error e => rfl
    | ok t =>
      obtain ⟨out, ch, kOut⟩ := t
      obtain ⟨ysP, ysS, seenP, seenS, kP, chP, chS, hnP, hnS, hcp, hcs, _⟩ :=
        get_store_ok u kvs0 out ch kOut hgs
      obtain ⟨hinjP, hinjS, hmemP, hmemS⟩ := h
      have hP := normList_spec u "prg" false (totalN (.obj kvs0)) hinjP
        (collOf (.obj kvs0) "progressions") [] 0 ysP seenP kP chP
        (fun i _ _ => rfl) (fun i _ hi => hmemP i hi)
        (by unfold totalN; omega) hnP
      obtain ⟨⟨hkP0, hkPb⟩, _, hvsP, hndP⟩ := hP
      have hSs := normList_spec u "shape" true (totalN (.obj kvs0)) hinjS
        (collOf (.obj kvs0) "shapes") [] kP ysS seenS kOut chS
        (fun i _ _ => rfl) (fun i _ hi => hmemS i hi)
        (by unfold totalN at *; omega) hnS
      obtain ⟨_, _, hvsS, hndS⟩ := hSs
      simp only [okOrErr]
      unfold idsOkDoc collIdsOk
      rw [hcp, hcs]
      simp only [Bool.and_eq_true]
      refine ⟨⟨?_, hndP⟩, ?_, hndS⟩
      · rw [List.all_eq_true]; intro v hv; exact (hvsP v hv).1
      · rw [List.all_eq_true]; intro v hv; exact (hvsS v hv).1
  | null => rfl
  | bool b => rfl
  | num n => rfl
  | str s => rfl
  | arr l => rfl

theorem get_store_ids_unique_witness :
    GoodGen u0 docDup ∧ okOrErr idsOkDoc (get_store u0 docDup) = true :=
  ⟨by decide, get_store_ids_unique u0 docDup (by decide)⟩

/-! ## Frame lemmas -/

theorem objAgreeExcept_of (excl : List String) (a b : List (String × Json))
    (h : ∀ key, excl.contains key = false → objGet b key = objGet a key) :
    objAgreeExcept excl a b = true := by
  unfold objAgreeExcept
  simp only [Bool.and_eq_true, List.all_eq_true]
  constructor
  · intro p hp
    by_cases hc : excl.contains p.1
    · simp only [Bool.or_eq_true]; exact Or.inl hc
    · simp only [Bool.or_eq_true, decide_eq_true_eq]
      exact Or.inr (h p.1 (by simpa using hc))
  · intro p hp
    by_cases hc : excl.contains p.1
    · simp only [Bool.or_eq_true]; exact Or.inl hc
    · simp only [Bool.or_eq_true, decide_eq_true_eq]
      exact Or.inr (h p.1 (by simpa using hc)).symm

theorem normItem_frame (u : Nat → String) (pre : String) (shape : Bool)
    (seen : List Json) (k : Nat) (x y : Json) (seen1 : List Json) (k1 : Nat) (ch1 : Bool)
    (h : normItem u pre shape seen k x = .ok (y, seen1, k1, ch1)) :
    frameAgrees (if shape then ["id", "chord"] else ["id"]) x y = true := by
  by_cases hobj : isObjB x = true
  · have hx : ∃ kvs, x = .obj kvs := by
      cases x <;> simp [isObjB] at hobj <;> exact ⟨_, rfl⟩
    obtain ⟨kvs, rfl⟩ := hx
    obtain ⟨kvs', hy, _, hcase⟩ := normItem_obj_ok u pre shape seen k kvs y seen1 k1 ch1 h
    subst hy
    show objAgreeExcept _ kvs _ = true
    apply objAgreeExcept_of
    intro key hkey
    have hid : key ≠ "id" := by
      intro hk; subst hk
      cases shape <;> simp at hkey
    have hget2 : objGet kvs' key = objGet kvs key := by
      rcases hcase with ⟨hkv, _⟩ | ⟨hkv, _⟩
      · rw [hkv]
      · rw [hkv, objGet_objSet_ne _ _ _ _ hid]
    cases shape with
    | false => simpa using hget2
    | true =>
      have hchord : key ≠ "chord" := by
        intro hk; subst hk; simp at hkey
      simp only [if_pos]
      rw [nse_get_ne _ _ hchord, hget2]
  · have hxo : isObjB x = false := by simpa using hobj
    rw [normItem_nonobj u pre shape seen k x hxo] at h
    simp only [Except.ok.injEq, Prod.mk.injEq] at h
    obtain ⟨hxy, _⟩ := h
    subst hxy
    cases x <;> simp [frameAgrees, isObjB] at hxo ⊢

theorem normList_frame (u : Nat → String) (pre : String) (shape : Bool) :
    ∀ (xs seen : List Json) (k : Nat) (ys seen2 : List Json) (k2 : Nat) (ch : Bool),
      normList u pre shape xs seen k = .ok (ys, seen2, k2, ch) →
      frameList (if shape then ["id", "chord"] else ["id"]) xs ys = true := by
  intro xs
  induction xs with
  | nil =>
    intro seen k ys seen2 k2 ch h
    rw [normList_nil] at h
    simp only [Except.ok.injEq, Prod.mk.injEq] at h
    obtain ⟨hys, _⟩ := h
    subst hys
    rfl
  | cons x rest ih =>
    intro seen k ys seen2 k2 ch h
    rw [normList_cons] at h
    cases hitem : normItem u pre shape seen k x with
    | error e => rw [hitem] at h; exact absurd h (by simp)
    | ok t =>
      obtain ⟨y, seen1, k1, ch1⟩ := t
      rw [hitem] at h
      dsimp only at h
      cases hrest : normList u pre shape rest seen1 k1 with
      | error e => rw [hrest] at h; exact absurd h (by simp)
      | ok t2 =>
        obtain ⟨ys2, seenR, kR, chR⟩ := t2
        rw [hrest] at h
        dsimp only at h
        simp only [Except.ok.injEq, Prod.mk.injEq] at h
        obtain ⟨hys, _⟩ := h
        subst hys
        show (frameAgrees _ x y && frameList _ rest ys2) = true
        simp only [Bool.and_eq_true]
        exact ⟨normItem_frame u pre shape seen k x y seen1 k1 ch1 hitem,
          ih seen1 k1 ys2 seenR kR chR hrest⟩

/-- C5: normalization preserves each collection's length and order; entry
`i` of the output is entry `i` of the input with at most its `id` (and,
for shapes, `chord`) field changed; non-dict entries are untouched.
Stated for documents whose collections are sequences, conditional on the
pass completing. -/
theorem normalize_frame (u : Nat → String) (d : Json) (h : collsAreSeqs d = true) :
    okOrErr (frameDoc d) (get_store u d) = true := by
  cases d with
  | obj kvs0 =>
    cases hgs : get_store u (.obj kvs0) with
    | error e => rfl
    | ok t =>
      obtain ⟨out, ch, kOut⟩ := t
      obtain ⟨ysP, ysS, seenP, seenS, kP, chP, chS, hnP, hnS, hcp, hcs, _⟩ :=
        get_store_ok u kvs0 out ch kOut hgs
      simp only [okOrErr]
      unfold frameDoc
      rw [hcp, hcs]
      simp only [Bool.and_eq_true]
      constructor
      · have := normList_frame u "prg" false _ _ _ _ _ _ _ hnP
        simpa using this
      · have := normList_frame u "shape" true _ _ _ _ _ _ _ hnS
        simpa using this
  | null => simp [collsAreSeqs] at h
  | bool b => simp [collsAreSeqs] at h
  | num n => simp [collsAreSeqs] at h
  | str s => simp [collsAreSeqs] at h
  | arr l => simp [collsAreSeqs] at h

theorem normalize_frame_witness :
    collsAreSeqs docDup = true ∧ okOrErr (frameDoc docDup) (get_store u0 docDup) = true :=
  ⟨by decide, normalize_frame u0 docDup (by decide)⟩

/-! ## Diagram fields under normalization (C6) -/

theorem normItem_diag (u : Nat → String) (pre : String) (seen : List Json) (k : Nat)
    (x y : Json) (seen1 : List Json) (k1 : Nat) (ch1 : Bool)
    (h : normItem u pre true seen k x = .ok (y, seen1, k1, ch1)) :
    diagAgrees x y = true := by
  by_cases hobj : isObjB x = true
  · have hx : ∃ kvs, x = .obj kvs := by
      cases x <;> simp [isObjB] at hobj <;> exact ⟨_, rfl⟩
    obtain ⟨kvs, rfl⟩ := hx
    obtain ⟨kvs', hy, _, hcase⟩ := normItem_obj_ok u pre true seen k kvs y seen1 k1 ch1 h
    subst hy
    show decide (objGet (normalize_shape_entry kvs').1 "diagram" = objGet kvs "diagram")
      = true
    rw [nse_get_ne _ _ (by decide)]
    have hget2 : objGet kvs' "diagram" = objGet kvs "diagram" := by
      rcases hcase with ⟨hkv, _⟩ | ⟨hkv, _⟩
      · rw [hkv]
      · rw [hkv, objGet_objSet_ne _ _ _ _ (by decide)]
    simp [hget2]
  · have hxo : isObjB x = false := by simpa using hobj
    rw [normItem_nonobj u pre true seen k x hxo] at h
    simp only [Except.ok.injEq, Prod.mk.injEq] at h
    obtain ⟨hxy, _⟩ := h
    subst hxy
    cases x <;> simp [diagAgrees, isObjB] at hxo ⊢

theorem normList_diag (u : Nat → String) (pre : String) :
    ∀ (xs seen : List Json) (k : Nat) (ys seen2 : List Json) (k2 : Nat) (ch : Bool),
      normList u pre true xs seen k = .ok (ys, seen2, k2, ch) →
      diagList xs ys = true := by
  intro xs
  induction xs with
  | nil =>
    intro seen k ys seen2 k2 ch h
    rw [normList_nil] at h
    simp only [Except.ok.injEq, Prod.mk.injEq] at h
    obtain ⟨hys, _⟩ := h
    subst hys
    rfl
  | cons x rest ih =>
    intro seen k ys seen2 k2 ch h
    rw [normList_cons] at h
    cases hitem : normItem u pre true seen k x with
    | error e => rw [hitem] at h; exact absurd h (by simp)
    | ok t =>
      obtain ⟨y, seen1, k1, ch1⟩ := t
      rw [hitem] at h
      dsimp only at h
      cases hrest : normList u pre true rest seen1 k1 with
      | error e => rw [hrest] at h; exact absurd h (by simp)
      | ok t2 =>
        obtain ⟨ys2, seenR, kR, chR⟩ := t2
        rw [hrest] at h
        dsimp only at h
        simp only [Except.ok.injEq, Prod.mk.injEq] at h
        obtain ⟨hys, _⟩ := h
        subst hys
        show (diagAgrees x y && diagList rest ys2) = true
        simp only [Bool.and_eq_true]
        exact ⟨normItem_diag u pre seen k x y seen1 k1 ch1 hitem,
          ih seen1 k1 ys2 seenR kR chR hrest⟩

/-- C6 counterexample: a loaded document whose single shape has a 3-entry
`frets` and `startFret = 0` passes normalization unchanged, so the claimed
invariant (exactly 6 frets, `startFret ≥ 1` after every Normalizer pass)
is false on the code. -/
theorem normalize_keeps_bad_diagram :
    okOrErr diagOkDoc (get_store u0 docBadDiag) = false := by decide

/-- C6 (amended): a Normalizer pass never touches the `diagram` field of a
shape record — the 6-fret / `startFret ≥ 1` bounds are enforced only by
payload validation on create/update, not by normalization, so violating
persisted diagrams survive the pass verbatim. -/
theorem normalize_preserves_diagrams (u : Nat → String) (d : Json) :
    okOrErr (diagFrame d) (get_store u d) = true := by
  cases d with
  | obj kvs0 =>
    cases hgs : get_store u (.obj kvs0) with
    | error e => rfl
    | ok t =>
      obtain ⟨out, ch, kOut⟩ := t
      obtain ⟨ysP, ysS, seenP, seenS, kP, chP, chS, hnP, hnS, hcp, hcs, _⟩ :=
        get_store_ok u kvs0 out ch kOut hgs
      simp only [okOrErr]
      unfold diagFrame
      rw [hcs]
      exact normList_diag u "shape" _ _ _ _ _ _ _ hnS
  | null => rfl
  | bool b => rfl
  | num n => rfl
  | str s => rfl
  | arr l => rfl

/-! ## Graceful loading and normalization (C2) -/

theorem hashColl_imp (xs : List Json) (h : hashIdsOkColl xs = true) :
    ∀ v ∈ objIds xs, truthy v = true → hashable v = true := by
  unfold hashIdsOkColl at h
  rw [List.all_eq_true] at h
  intro v hv ht
  have := h v hv
  simpa [ht] using this

theorem repaired_get_prog (kvs : List (String × Json)) :
    objGet (repairKey (repairKey kvs "progressions").1 "shapes").1 "progressions"
      = some (.arr (collOf (.obj kvs) "progressions")) := by
  rw [repairKey_get_ne _ _ _ (by decide), repairKey_get]

theorem repaired_get_shapes (kvs : List (String × Json)) :
    objGet (repairKey (repairKey kvs "progressions").1 "shapes").1 "shapes"
      = some (.arr (collOf (.obj kvs) "shapes")) := by
  rw [repairKey_get]
  have h2 : collOf (.obj (repairKey kvs "progressions").1) "shapes"
      = collOf (.obj kvs) "shapes" := by
    unfold collOf
    dsimp only
    rw [repairKey_get_ne _ _ _ (by decide)]
  rw [h2]

theorem get_store_total (u : Nat → String) (kvs : List (String × Json))
    (h : hashIdsOk (.obj kvs) = true) : ∃ r, get_store u (.obj kvs) = .ok r := by
  unfold hashIdsOk at h
  simp only [Bool.and_eq_true] at h
  unfold get_store
  dsimp only
  rw [normalize_ids_eq u 0 _ "progressions" "prg" false _ (repaired_get_prog kvs)]
  obtain ⟨⟨ysP, seenP, kP, chP⟩, hnP⟩ :=
    normList_total u "prg" false (collOf (.obj kvs) "progressions") [] 0
      (hashColl_imp _ h.1)
  rw [hnP]
  dsimp only
  have hS3 : objGet (objSet (repairKey (repairKey kvs "progressions").1 "shapes").1
      "progressions" (.arr ysP)) "shapes" = some (.arr (collOf (.obj kvs) "shapes")) := by
    rw [objGet_objSet_ne _ "progressions" "shapes" _ (by decide)]
    exact repaired_get_shapes kvs
  rw [normalize_ids_eq u kP _ "shapes" "shape" true _ hS3]
  obtain ⟨⟨ysS, seenS, kS, chS⟩, hnS⟩ :=
    normList_total u "shape" true (collOf (.obj kvs) "shapes") [] kP
      (hashColl_imp _ h.2)
  rw [hnS]
  dsimp only
  exact ⟨_, rfl⟩

/-- C2 counterexample: a backing file holding valid JSON that is not an
object — here the top-level array `[]` — is returned as-is by the load
step, and the Normalizer then raises `TypeError` on it, contradicting
"Normalizer itself never fails". -/
theorem get_store_nondict_raises :
    load_data (.parsed (Json.arr [])) = Json.arr [] ∧
    get_store u0 (Json.arr []) = .error PyError.typeError := ⟨rfl, rfl⟩

/-- C2 (amended): the load step returns the parsed JSON value when the
file parses and the empty default on a missing or unparseable file, never
an error; and when the loaded value is a JSON object whose truthy record
ids are hashable, the Normalizer pass always succeeds and its output has
both collections present as sequences.  (On a non-object loaded value, or
a truthy list/dict id, the pass raises `TypeError` instead.) -/
theorem load_and_normalize_graceful (u : Nat → String) (kvs : List (String × Json))
    (v : Json) (h : hashIdsOk (.obj kvs) = true) :
    load_data .absent = emptyDoc ∧ load_data .unparseable = emptyDoc ∧
    load_data (.parsed v) = v ∧
    isOkB (get_store u (.obj kvs)) = true ∧
    okOrErr structureOkB (get_store u (.obj kvs)) = true := by
  obtain ⟨⟨out, ch, kOut⟩, hr⟩ := get_store_total u kvs h
  refine ⟨rfl, rfl, rfl, by rw [hr]; rfl, ?_⟩
  obtain ⟨_, _, _, _, _, _, _, _, _, _, _, hst, _⟩ := get_store_ok u kvs out ch kOut hr
  rw [hr]
  simpa [okOrErr] using hst

theorem load_and_normalize_graceful_witness :
    hashIdsOk (.obj docPartialKvs) = true ∧
    (load_data .absent = emptyDoc ∧ load_data .unparseable = emptyDoc ∧
     load_data (.parsed (Json.num 4)) = Json.num 4 ∧
     isOkB (get_store u0 (.obj docPartialKvs)) = true ∧
     okOrErr structureOkB (get_store u0 (.obj docPartialKvs)) = true) :=
  ⟨by decide, load_and_normalize_graceful u0 docPartialKvs (Json.num 4) (by decide)⟩

/-! ## Idempotence (C3) -/

theorem pyMem_false_iff (v : Json) (l : List Json) :
    pyMem v l = false ↔ ∀ w ∈ l, pyEq v w = false := by
  induction l with
  | nil => simp [pyMem]
  | cons w ws ih => simp [pyMem_cons, Bool.or_eq_false_iff, ih]

theorem chordTarget_of_fix (kvs : List (String × Json)) (c : String)
    (h : objGet kvs "chord" = some (.str c)) (hs : pyStrip c = c) (hne : c ≠ "") :
    chordTarget kvs = c := by
  unfold chordTarget
  rw [h]
  show (if pyStrip (pyStr (.str c)) = "" then placeholderChord
    else pyStrip (pyStr (.str c))) = c
  have hps : pyStr (.str c) = c := rfl
  rw [hps, hs, if_neg hne]

theorem normList_chordfix (u : Nat → String) (pre : String) :
    ∀ (xs seen : List Json) (k : Nat) (ys seen2 : List Json) (k2 : Nat) (ch : Bool),
      normList u pre true xs seen k = .ok (ys, seen2, k2, ch) →
      ∀ kvs, (Json.obj kvs) ∈ ys →
        ∃ c, objGet kvs "chord" = some (.str c) ∧ pyStrip c = c ∧ c ≠ "" := by
  intro xs
  induction xs with
  | nil =>
    intro seen k ys seen2 k2 ch h
    rw [normList_nil] at h
    simp only [Except.ok.injEq, Prod.mk.injEq] at h
    obtain ⟨hys, _⟩ := h
    subst hys
    intro kvs hm
    exact absurd hm (by simp)
  | cons x rest ih =>
    intro seen k ys seen2 k2 ch h
    rw [normList_cons] at h
    cases hitem : normItem u pre true seen k x with
    | error e => rw [hitem] at h; exact absurd h (by simp)
    | ok t =>
      obtain ⟨y, seen1, k1, ch1⟩ := t
      rw [hitem] at h
      dsimp only at h
      cases hrest : normList u pre true rest seen1 k1 with
      | error e => rw [hrest] at h; exact absurd h (by simp)
      | ok t2 =>
        obtain ⟨ys2, seenR, kR, chR⟩ := t2
        rw [hrest] at h
        dsimp only at h
        simp only [Except.ok.injEq, Prod.mk.injEq] at h
        obtain ⟨hys, _⟩ := h
        subst hys
        intro kvs hm
        rcases List.mem_cons.mp hm with hm | hm
        · -- head
          by_cases hobj : isObjB x = true
          · have hx : ∃ kvs0, x = .obj kvs0 := by
              cases x <;> simp [isObjB] at hobj <;> exact ⟨_, rfl⟩
            obtain ⟨kvs0, rfl⟩ := hx
            obtain ⟨kvs', hy, _, _⟩ :=
              normItem_obj_ok u pre true seen k kvs0 y seen1 k1 ch1 hitem
            rw [hy] at hm
            simp only [if_pos, Json.obj.injEq] at hm
            refine ⟨chordTarget kvs', ?_, chordTarget_strip kvs', chordTarget_ne_empty kvs'⟩
            rw [hm]
            exact nse_chord kvs'
          · have hxo : isObjB x = false := by simpa using hobj
            rw [normItem_nonobj u pre true seen k x hxo] at hitem
            simp only [Except.ok.injEq, Prod.mk.injEq] at hitem
            obtain ⟨hxy, _⟩ := hitem
            rw [hxy] at hxo
            rw [← hm] at hxo
            simp [isObjB] at hxo
        · exact ih seen1 k1 ys2 seenR kR chR hrest kvs hm

theorem normList_nochange (u : Nat → String) (pre : String) (shape : Bool) :
    ∀ (xs seen : List Json) (k : Nat),
      (∀ v ∈ objIds xs, truthy v = true ∧ hashable v = true ∧ pyMem v seen = false) →
      pyNodupB (objIds xs) = true →
      (shape = true → ∀ kvs, (Json.obj kvs) ∈ xs →
        ∃ c, objGet kvs "chord" = some (.str c) ∧ pyStrip c = c ∧ c ≠ "") →
      normList u pre shape xs seen k = .ok (xs, seen ++ objIds xs, k, false) := by
  intro xs
  induction xs with
  | nil =>
    intro seen k _ _ _
    rw [normList_nil]
    simp [objIds]
  | cons x rest ih =>
    intro seen k hvs hnd hcf
    by_cases hobj : isObjB x = true
    · have hx : ∃ kvs, x = .obj kvs := by
        cases x <;> simp [isObjB] at hobj <;> exact ⟨_, rfl⟩
      obtain ⟨kvs, rfl⟩ := hx
      have hhead := hvs ((objGet kvs "id").getD Json.null)
        (by rw [objIds_cons_obj]; exact List.mem_cons_self _ _)
      obtain ⟨ht, hh, hm⟩ := hhead
      have hitem : normItem u pre shape seen k (.obj kvs)
          = .ok (.obj kvs, seen ++ [(objGet kvs "id").getD Json.null], k, false) := by
        simp only [normItem]
        rw [if_neg (by simp [ht]), if_neg (by simp [hh]), if_neg (by simp [hm]),
          normFinish_eq]
        cases shape with
        | false => rfl
        | true =>
          obtain ⟨c, hc1, hc2, hc3⟩ := hcf rfl kvs (List.mem_cons_self _ _)
          have hct : chordTarget kvs = c := chordTarget_of_fix kvs c hc1 hc2 hc3
          rw [nse_nochange kvs (by rw [hct]; exact hc1)]
          simp
      rw [normList_cons, hitem]
      dsimp only
      have hndr : pyNodupB (objIds rest) = true := by
        rw [objIds_cons_obj] at hnd
        simp only [pyNodupB, Bool.and_eq_true] at hnd
        exact hnd.2
      have hidnotin : pyMem ((objGet kvs "id").getD Json.null) (objIds rest) = false := by
        rw [objIds_cons_obj] at hnd
        simp only [pyNodupB, Bool.and_eq_true, Bool.not_eq_true'] at hnd
        exact hnd.1
      have hvsr : ∀ v ∈ objIds rest, truthy v = true ∧ hashable v = true ∧
          pyMem v (seen ++ [(objGet kvs "id").getD Json.null]) = false := by
        intro v hv
        obtain ⟨ht2, hh2, hm2⟩ := hvs v (by rw [objIds_cons_obj]; exact List.mem_cons_of_mem _ hv)
        refine ⟨ht2, hh2, ?_⟩
        rw [pyMem_append, pyMem_singleton]
        simp only [Bool.or_eq_false_iff]
        refine ⟨hm2, ?_⟩
        rw [pyEq_comm]
        exact (pyMem_false_iff _ _).mp hidnotin v hv
      have hcfr : shape = true → ∀ kvs2, (Json.obj kvs2) ∈ rest →
          ∃ c, objGet kvs2 "chord" = some (.str c) ∧ pyStrip c = c ∧ c ≠ "" :=
        fun hs kvs2 hm2 => hcf hs kvs2 (List.mem_cons_of_mem _ hm2)
      rw [ih (seen ++ [(objGet kvs "id").getD Json.null]) k hvsr hndr hcfr]
      dsimp only
      rw [objIds_cons_obj]
      simp
    · have hxo : isObjB x = false := by simpa using hobj
      have e2 : objIds (x :: rest) = objIds rest := objIds_cons_nonobj x rest hxo
      rw [normList_cons, normItem_nonobj u pre shape seen k x hxo]
      dsimp only
      rw [ih seen k (by rw [← e2]; exact hvs) (by rw [← e2]; exact hnd)
        (fun hs kvs2 hm2 => hcf hs kvs2 (List.mem_cons_of_mem _ hm2))]
      dsimp only
      rw [e2]
      simp

theorem repairKey_nochange (kvs : List (String × Json)) (key : String) (xs : List Json)
    (h : objGet kvs key = some (.arr xs)) : repairKey kvs key = (kvs, false) := by
  unfold repairKey
  rw [h]

theorem get_store_idem (u u2 : Nat → String) (d d1 : Json) (ch : Bool) (kOut : Nat)
    (hg : GoodGen u d) (h : get_store u d = .ok (d1, ch, kOut)) :
    get_store u2 d1 = .ok (d1, false, 0) := by
  cases d with
  | obj kvs0 =>
    obtain ⟨ysP, ysS, seenP, seenS, kP, chP, chS, hnP, hnS, hcp, hcs, hst, hform⟩ :=
      get_store_ok u kvs0 d1 ch kOut h
    obtain ⟨hinjP, hinjS, hmemP, hmemS⟩ := hg
    have hPspec := normList_spec u "prg" false (totalN (.obj kvs0)) hinjP
      (collOf (.obj kvs0) "progressions") [] 0 ysP seenP kP chP
      (fun i _ _ => rfl) (fun i _ hi => hmemP i hi) (by unfold totalN; omega) hnP
    obtain ⟨⟨hk0, hkPb⟩, _, hvsP, hndP⟩ := hPspec
    have hSspec := normList_spec u "shape" true (totalN (.obj kvs0)) hinjS
      (collOf (.obj kvs0) "shapes") [] kP ysS seenS kOut chS
      (fun i _ _ => rfl) (fun i _ hi => hmemS i hi)
      (by unfold totalN at *; omega) hnS
    obtain ⟨_, _, hvsS, hndS⟩ := hSspec
    have hcfS := normList_chordfix u "shape" (collOf (.obj kvs0) "shapes") [] kP
      ysS seenS kOut chS hnS
    set kvs4 := objSet (objSet (repairKey (repairKey kvs0 "progressions").1 "shapes").1
      "progressions" (.arr ysP)) "shapes" (.arr ysS) with hkvs4
    have hgP : objGet kvs4 "progressions" = some (.arr ysP) := by
      rw [hkvs4, objGet_objSet_ne _ "shapes" "progressions" _ (by decide),
        objGet_objSet_self]
    have hgS : objGet kvs4 "shapes" = some (.arr ysS) := by
      rw [hkvs4, objGet_objSet_self]
    subst hform
    unfold get_store
    dsimp only
    rw [repairKey_nochange kvs4 "progressions" ysP hgP]
    dsimp only
    rw [repairKey_nochange kvs4 "shapes" ysS hgS]
    dsimp only
    rw [normalize_ids_eq u2 0 kvs4 "progressions" "prg" false ysP hgP]
    rw [normList_nochange u2 "prg" false ysP [] 0
      (fun v hv => ⟨(hvsP v hv).1, (hvsP v hv).2.1, rfl⟩) hndP
      (fun hc => absurd hc (by simp))]
    dsimp only
    rw [objSet_of_objGet kvs4 "progressions" (.arr ysP) hgP]
    rw [normalize_ids_eq u2 0 kvs4 "shapes" "shape" true ysS hgS]
    rw [normList_nochange u2 "shape" true ysS [] 0
      (fun v hv => ⟨(hvsS v hv).1, (hvsS v hv).2.1, rfl⟩) hndS
      (fun _ => hcfS)]
    dsimp only
    rw [objSet_of_objGet kvs4 "shapes" (.arr ysS) hgS]
    rfl
  | null => exact absurd h (by simp [get_store])
  | bool b => exact absurd h (by simp [get_store])
  | num n => exact absurd h (by simp [get_store])
  | str s => exact absurd h (by simp [get_store])
  | arr l => exact absurd h (by simp [get_store])

/-- C3: for every document that a completed Normalizer pass (with a good
generator) has produced, running the pass again succeeds, reports
`changed = false`, makes no generator draw and returns the document
unchanged. -/
theorem normalize_idempotent (u u2 : Nat → String) (d : Json) (h : GoodGen u d) :
    idemCheck u u2 d = true := by
  unfold idemCheck
  cases hgs : get_store u d with
  | error e => rfl
  | ok t =>
    obtain ⟨d1, ch, kOut⟩ := t
    dsimp only
    rw [get_store_idem u u2 d d1 ch kOut h hgs]
    simp

theorem normalize_idempotent_witness :
    GoodGen u0 docDup ∧ idemCheck u0 u0 docDup = true :=
  ⟨by decide, normalize_idempotent u0 u0 docDup (by decide)⟩

/-! ## First-occurrence-wins (C4) -/

theorem pyEq_trans (a b c : Json) (h1 : pyEq a b = true) (h2 : pyEq b c = true) :
    pyEq a c = true := by
  rw [pyEq_eq_decide] at h1 h2 ⊢
  simp only [decide_eq_true_eq] at h1 h2 ⊢
  exact h1.trans h2

theorem pyMem_exists (v : Json) (l : List Json) :
    pyMem v l = true ↔ ∃ w ∈ l, pyEq v w = true := by
  induction l with
  | nil => simp [pyMem]
  | cons w ws ih => simp [pyMem_cons, ih]

theorem pyMem_congr (v w : Json) (l : List Json) (he : pyEq v w = true)
    (hm : pyMem w l = true) : pyMem v l = true := by
  rw [pyMem_exists] at hm ⊢
  obtain ⟨z, hz, he2⟩ := hm
  exact ⟨z, hz, pyEq_trans v w z he he2⟩

theorem getD_truthy_some (kvs : List (String × Json))
    (ht : truthy ((objGet kvs "id").getD Json.null) = true) :
    objGet kvs "id" = some ((objGet kvs "id").getD Json.null) := by
  cases h : objGet kvs "id" with
  | none => rw [h] at ht; simp [truthy] at ht
  | some w => simp [h]

theorem idOf_normOut (shape : Bool) (kvs2 : List (String × Json)) :
    idOf (.obj (if shape then (normalize_shape_entry kvs2).1 else kvs2))
      = objGet kvs2 "id" := by
  show objGet (if shape then (normalize_shape_entry kvs2).1 else kvs2) "id"
    = objGet kvs2 "id"
  exact normOut_id shape kvs2

theorem priorStep_obj (prior : List Json) (kvs : List (String × Json)) :
    priorStep prior (.obj kvs) =
      prior ++ (if truthy ((objGet kvs "id").getD Json.null)
        then [(objGet kvs "id").getD Json.null] else []) := rfl

theorem priorStep_nonobj (prior : List Json) (x : Json) (h : isObjB x = false) :
    priorStep prior x = prior := by
  cases x <;> simp_all [priorStep, isObjB]

theorem firstWinsAux_cons (origIds prior : List Json) (x y : Json)
    (rest yrest : List Json) :
    firstWinsAux origIds prior (x :: rest) (y :: yrest) =
      (firstWinsHead origIds prior x y &&
        firstWinsAux origIds (priorStep prior x) rest yrest) := rfl

theorem firstWinsAux_spec (u : Nat → String) (pre : String) (shape : Bool) (N : Nat)
    (origIds : List Json)
    (hfo : ∀ i, i < N → pyMem (Json.str (generate_id u pre i)) origIds = false) :
    ∀ (xs prior seen : List Json) (k : Nat) (ys seen2 : List Json) (k2 : Nat) (ch : Bool),
      normList u pre shape xs seen k = .ok (ys, seen2, k2, ch) →
      k + xs.length ≤ N →
      (∀ v ∈ objIds xs, v ∈ origIds) →
      (∀ w, pyMem w prior = true → pyMem w seen = true) →
      (∀ w ∈ seen, pyMem w prior = true ∨ ∃ m, m < k ∧ w = .str (generate_id u pre m)) →
      firstWinsAux origIds prior xs ys = true := by
  intro xs
  induction xs with
  | nil =>
    intro prior seen k ys seen2 k2 ch h _ _ _ _
    rw [normList_nil] at h
    simp only [Except.ok.injEq, Prod.mk.injEq] at h
    obtain ⟨hys, _⟩ := h
    subst hys
    rfl
  | cons x rest ih =>
    intro prior seen k ys seen2 k2 ch h hbound hsub hc2 hc1
    rw [normList_cons] at h
    cases hitem : normItem u pre shape seen k x with
    | error e => rw [hitem] at h; exact absurd h (by simp)
    | ok t =>
      obtain ⟨y, seen1, k1, ch1⟩ := t
      rw [hitem] at h
      dsimp only at h
      cases hrest : normList u pre shape rest seen1 k1 with
      | error e => rw [hrest] at h; exact absurd h (by simp)
      | ok t2 =>
        obtain ⟨ys2, seenR, kR, chR⟩ := t2
        rw [hrest] at h
        dsimp only at h
        simp only [Except.ok.injEq, Prod.mk.injEq] at h
        obtain ⟨hys, _⟩ := h
        subst hys
        rw [firstWinsAux_cons]
        simp only [Bool.and_eq_true]
        have hkN : k < N := by simp at hbound; omega
        have hboundR0 : k + 1 + rest.length ≤ N := by simp at hbound; omega
        have hsubR : ∀ v ∈ objIds rest, v ∈ origIds := by
          intro v hv
          refine hsub v ?_
          cases x with
          | obj kvs => rw [objIds_cons_obj]; exact List.mem_cons_of_mem _ hv
          | null => exact hv
          | bool b => exact hv
          | num n => exact hv
          | str s => exact hv
          | arr l => exact hv
        by_cases hobj : isObjB x = true
        · have hx : ∃ kvs, x = .obj kvs := by
            cases x <;> simp [isObjB] at hobj <;> exact ⟨_, rfl⟩
          obtain ⟨kvs, rfl⟩ := hx
          have hvin : ((objGet kvs "id").getD Json.null) ∈ origIds :=
            hsub _ (by rw [objIds_cons_obj]; exact List.mem_cons_self _ _)
          by_cases ht : truthy ((objGet kvs "id").getD Json.null) = true
          · have hhash : hashable ((objGet kvs "id").getD Json.null) = true := by
              by_contra hcon
              have hbad : normItem u pre shape seen k (.obj kvs) = .error .typeError := by
                simp only [normItem]
                rw [if_neg (by simp [ht]), if_pos (by simpa using hcon)]
              rw [hbad] at hitem
              exact absurd hitem (by simp)
            by_cases hpm : pyMem ((objGet kvs "id").getD Json.null) seen = true
            · -- duplicate: reassigned a fresh id
              have hprior : pyMem ((objGet kvs "id").getD Json.null) prior = true := by
                obtain ⟨w, hw, hewv⟩ := (pyMem_exists _ _).mp hpm
                rcases hc1 w hw with hwp | ⟨m, hmk, hwf⟩
                · exact pyMem_congr _ w prior hewv hwp
                · exfalso
                  have hfm := hfo m (by omega)
                  rw [pyMem_false_iff] at hfm
                  have hfv := hfm _ hvin
                  rw [hwf, pyEq_comm] at hewv
                  rw [hewv] at hfv
                  simp at hfv
              have hitem2 : normItem u pre shape seen k (.obj kvs)
                  = normItem.normFinish shape seen (k + 1)
                    (objSet kvs "id" (.str (generate_id u pre k))) true := by
                simp only [normItem]
                rw [if_neg (by simp [ht]), if_neg (by simp [hhash]), if_pos hpm]
              rw [normFinish_eq, objGet_objSet_self] at hitem2
              simp only [Option.getD_some] at hitem2
              rw [hitem2] at hitem
              simp only [Except.ok.injEq, Prod.mk.injEq] at hitem
              obtain ⟨hy, hs1, hk1, _⟩ := hitem
              subst hy hs1 hk1
              constructor
              · show firstWinsHead origIds prior (.obj kvs) _ = true
                simp only [firstWinsHead]
                rw [if_neg (by simp [hprior]), if_pos (by simp [ht, hprior])]
                rw [idOf_normOut, objGet_objSet_self]
                simpa using hfo k hkN
              · rw [priorStep_obj, if_pos ht]
                refine ih _ _ _ _ _ _ _ hrest hboundR0 hsubR ?_ ?_
                · intro w hw
                  rw [pyMem_append, pyMem_singleton] at hw
                  simp only [Bool.or_eq_true] at hw
                  rcases hw with hw | hw
                  · have := hc2 w hw
                    rw [pyMem_append]
                    simp [this]
                  · have := pyMem_congr w _ seen hw hpm
                    rw [pyMem_append]
                    simp [this]
                · intro w hw
                  rw [List.mem_append] at hw
                  rcases hw with hw | hw
                  · rcases hc1 w hw with hwp | ⟨m, hmk, hwf⟩
                    · left
                      rw [pyMem_append]
                      simp [hwp]
                    · exact Or.inr ⟨m, by omega, hwf⟩
                  · simp only [List.mem_singleton] at hw
                    exact Or.inr ⟨k, by omega, hw⟩
            · -- first occurrence of a truthy id: kept
              have hpriorF : pyMem ((objGet kvs "id").getD Json.null) prior = false := by
                by_contra hcon
                have : pyMem ((objGet kvs "id").getD Json.null) prior = true := by
                  simpa using hcon
                exact hpm (hc2 _ this)
              have hpmF : pyMem ((objGet kvs "id").getD Json.null) seen = false := by
                simpa using hpm
              have hitem2 : normItem u pre shape seen k (.obj kvs)
                  = normItem.normFinish shape seen k kvs false := by
                simp only [normItem]
                rw [if_neg (by simp [ht]), if_neg (by simp [hhash]), if_neg hpm]
              rw [normFinish_eq] at hitem2
              rw [hitem2] at hitem
              simp only [Except.ok.injEq, Prod.mk.injEq] at hitem
              obtain ⟨hy, hs1, hk1, _⟩ := hitem
              subst hy hs1 hk1
              constructor
              · show firstWinsHead origIds prior (.obj kvs) _ = true
                simp only [firstWinsHead]
                rw [if_pos (by simp [ht, hpriorF])]
                rw [idOf_normOut]
                simp only [decide_eq_true_eq]
                exact getD_truthy_some kvs ht
              · rw [priorStep_obj, if_pos ht]
                refine ih _ _ _ _ _ _ _ hrest (by simp at hbound; omega) hsubR ?_ ?_
                · intro w hw
                  rw [pyMem_append, pyMem_singleton] at hw ⊢
                  simp only [Bool.or_eq_true] at hw ⊢
                  rcases hw with hw | hw
                  · exact Or.inl (hc2 w hw)
                  · exact Or.inr hw
                · intro w hw
                  rw [List.mem_append] at hw
                  rcases hw with hw | hw
                  · rcases hc1 w hw with hwp | ⟨m, hmk, hwf⟩
                    · left
                      rw [pyMem_append]
                      simp [hwp]
                    · exact Or.inr ⟨m, by omega, hwf⟩
                  · simp only [List.mem_singleton] at hw
                    subst hw
                    left
                    rw [pyMem_append, pyMem_singleton]
                    simp [pyEq_refl]
          · -- falsy id: assigned fresh, checker unconstrained
            have htF : truthy ((objGet kvs "id").getD Json.null) = false := by
              simpa using ht
            have hitem2 : normItem u pre shape seen k (.obj kvs)
                = normItem.normFinish shape seen (k + 1)
                  (objSet kvs "id" (.str (generate_id u pre k))) true := by
              simp only [normItem]
              rw [if_pos htF]
            rw [normFinish_eq, objGet_objSet_self] at hitem2
            simp only [Option.getD_some] at hitem2
            rw [hitem2] at hitem
            simp only [Except.ok.injEq, Prod.mk.injEq] at hitem
            obtain ⟨hy, hs1, hk1, _⟩ := hitem
            subst hy hs1 hk1
            constructor
            · show firstWinsHead origIds prior (.obj kvs) _ = true
              simp only [firstWinsHead]
              rw [if_neg (by simp [htF]), if_neg (by simp [htF])]
            · rw [priorStep_obj, if_neg (by simp [htF])]
              rw [List.append_nil]
              refine ih _ _ _ _ _ _ _ hrest hboundR0 hsubR ?_ ?_
              · intro w hw
                have := hc2 w hw
                rw [pyMem_append]
                simp [this]
              · intro w hw
                rw [List.mem_append] at hw
                rcases hw with hw | hw
                · rcases hc1 w hw with hwp | ⟨m, hmk, hwf⟩
                  · exact Or.inl hwp
                  · exact Or.inr ⟨m, by omega, hwf⟩
                · simp only [List.mem_singleton] at hw
                  exact Or.inr ⟨k, by omega, hw⟩
        · -- non-dict entry
          have hxo : isObjB x = false := by simpa using hobj
          rw [normItem_nonobj u pre shape seen k x hxo] at hitem
          simp only [Except.ok.injEq, Prod.mk.injEq] at hitem
          obtain ⟨hxy, hs1, hk1, _⟩ := hitem
          subst hxy hs1 hk1
          constructor
          · show firstWinsHead origIds prior x x = true
            cases x <;> simp [firstWinsHead, isObjB] at hxo ⊢
          · rw [priorStep_nonobj _ _ hxo]
            exact ih _ _ _ _ _ _ _ hrest (by simp at hbound; omega) hsubR hc2 hc1

/-- C4: the duplicate-id repair is a single left-to-right pass per
collection: when the pass completes, a dict record whose truthy id did
not occur on an earlier dict record keeps that id unchanged; a record
whose truthy id did occur earlier is reassigned a freshly generated
string id (never an id of the input collection); non-dict entries are
skipped, neither repaired nor removed.  Under the `FreshColl` generator
hypothesis. -/
theorem normalize_first_occurrence_wins (u : Nat → String) (pre : String) (shape : Bool)
    (k N : Nat) (xs : List Json) (hfresh : FreshColl u pre N xs)
    (hbound : k + xs.length ≤ N) :
    firstWinsCheck u pre shape k xs = true := by
  unfold firstWinsCheck
  cases hn : normList u pre shape xs [] k with
  | error e => rfl
  | ok t =>
    obtain ⟨ys, seen2, k2, ch⟩ := t
    dsimp only
    unfold firstWins
    exact firstWinsAux_spec u pre shape N (objIds xs) hfresh.2 xs [] [] k ys seen2 k2 ch
      hn hbound (fun v hv => hv) (fun w hw => by simp [pyMem] at hw)
      (fun w hw => absurd hw (by simp))

theorem normalize_first_occurrence_wins_witness :
    (FreshColl u0 "prg" 2 (collOf docDup "progressions") ∧
      0 + (collOf docDup "progressions").length ≤ 2) ∧
    firstWinsCheck u0 "prg" false 0 (collOf docDup "progressions") = true :=
  ⟨⟨by decide, by decide⟩,
    normalize_first_occurrence_wins u0 "prg" false 0 2 (collOf docDup "progressions")
      (by decide) (by decide)⟩

/-! ## Update contract (C7) -/

theorem replaceFirstSpec_cons (rid : String) (newRec x : Json) (rest : List Json) :
    replaceFirstSpec rid newRec (x :: rest) =
      if idOf x = some (.str rid) then newRec :: rest
      else x :: replaceFirstSpec rid newRec rest := rfl

theorem getD_eq_str_iff (kvs : List (String × Json)) (rid : String) :
    ((objGet kvs "id").getD Json.null = Json.str rid) ↔
      objGet kvs "id" = some (.str rid) := by
  cases h : objGet kvs "id" <;> simp [h]

theorem presentIn_cons (x : Json) (rest : List Json) (rid : String) :
    presentIn (x :: rest) rid =
      (decide (idOf x = some (.str rid)) || presentIn rest rid) := by
  simp [presentIn]

theorem scanReplace_allobj (rid : String) (newRec : Json) :
    ∀ xs, (∀ x ∈ xs, isObjB x = true) →
      scanReplace rid newRec xs =
        .ok (if presentIn xs rid then some (replaceFirstSpec rid newRec xs) else none) := by
  intro xs
  induction xs with
  | nil => intro _; simp [scanReplace, presentIn]
  | cons x rest ih =>
    intro hobj
    have hx : ∃ kvs, x = .obj kvs := by
      have := hobj x (List.mem_cons_self _ _)
      cases x <;> simp [isObjB] at this <;> exact ⟨_, rfl⟩
    obtain ⟨kvs, rfl⟩ := hx
    by_cases hm : objGet kvs "id" = some (.str rid)
    · have hm2 : (objGet kvs "id").getD Json.null = Json.str rid :=
        (getD_eq_str_iff kvs rid).mpr hm
      have hid : idOf (Json.obj kvs) = some (.str rid) := hm
      simp only [scanReplace, if_pos hm2, presentIn_cons, hid]
      rw [if_pos (by simp)]
      rw [replaceFirstSpec_cons, if_pos hid]
    · have hm2 : ¬ (objGet kvs "id").getD Json.null = Json.str rid := by
        rw [getD_eq_str_iff]; exact hm
      have hid : ¬ idOf (Json.obj kvs) = some (.str rid) := hm
      simp only [scanReplace, if_neg hm2]
      rw [ih (fun z hz => hobj z (List.mem_cons_of_mem _ hz))]
      by_cases hp : presentIn rest rid = true
      · rw [if_pos hp]
        dsimp only
        rw [presentIn_cons, if_pos (by simp [hp])]
        rw [replaceFirstSpec_cons, if_neg hid]
      · rw [if_neg hp]
        dsimp only
        rw [presentIn_cons, if_neg (by simp [hp, hid])]

theorem updateCheck_allobj (xs : List Json) (rid : String) (newRec : Json)
    (h : ∀ x ∈ xs, isObjB x = true) : updateCheck xs rid newRec = true := by
  unfold updateCheck updateBody
  rw [scanReplace_allobj rid newRec xs h]
  by_cases hp : presentIn xs rid = true
  · rw [if_pos hp]
    dsimp only
    simp [hp]
  · rw [if_neg hp]
    dsimp only
    have hfalse : presentIn xs rid = false := by simpa using hp
    rw [hfalse]
    rfl

/-- C7 counterexample: a collection state holding the non-dict entry
`"junk"` in front of a record with id `"x"` is reachable (normalization
keeps non-dict entries), and updating id `"x"` there raises
`AttributeError` (`.get` on a non-dict) instead of replacing the record
or reporting not-found. -/
theorem update_nondict_raises :
    update_progression_body junkColl "x" ⟨"n", ⟨"C", "Ionian"⟩, []⟩
        = .error (.pyError .attributeError) ∧
    ApiError.pyError .attributeError ≠ ApiError.notFound := ⟨rfl, by decide⟩

/-- C7 (amended): for every collection state whose entries are all dict
records: update with an id present in the collection replaces the first
matching record in place (same position) with the record built from the
payload plus the original id, and returns that record; update with an
absent id reports the not-found outcome (no record is created, the
collection is not persisted).  On a collection with a non-dict entry the
scan can instead raise `AttributeError`. -/
theorem update_contract (xs : List Json) (rid : String) (p : ProgressionCreate)
    (q : ChordShapePayload) (h : ∀ x ∈ xs, isObjB x = true) :
    updateCheck xs rid (progressionDict rid p) = true ∧
    updateCheck xs rid (shapeDict rid (fixChord q.chord) q.position q.diagram) = true :=
  ⟨updateCheck_allobj xs rid _ h, updateCheck_allobj xs rid _ h⟩

theorem update_contract_witness :
    (∀ x ∈ [Json.obj [("id", Json.str "a")], Json.obj [("id", Json.str "b")]],
      isObjB x = true) ∧
    (updateCheck [Json.obj [("id", Json.str "a")], Json.obj [("id", Json.str "b")]] "b"
        (progressionDict "b" ⟨"n", ⟨"C", "Ionian"⟩, []⟩) = true ∧
      updateCheck [Json.obj [("id", Json.str "a")], Json.obj [("id", Json.str "b")]] "b"
        (shapeDict "b" (fixChord "  Am ") none ⟨1, [0, 0, 2, 2, 1, 0]⟩) = true) :=
  ⟨by decide,
    update_contract [Json.obj [("id", Json.str "a")], Json.obj [("id", Json.str "b")]]
      "b" ⟨"n", ⟨"C", "Ionian"⟩, []⟩ ⟨"  Am ", none, ⟨1, [0, 0, 2, 2, 1, 0]⟩⟩ (by decide)⟩

/-! ## Delete contract (C8) -/

theorem removeFirstSpec_cons (rid : String) (x : Json) (rest : List Json) :
    removeFirstSpec rid (x :: rest) =
      if idOf x = some (.str rid) then rest else x :: removeFirstSpec rid rest := rfl

theorem objIds_mem_of_mem (kvs2 : List (String × Json)) (l : List Json)
    (h : (Json.obj kvs2) ∈ l) : ((objGet kvs2 "id").getD Json.null) ∈ objIds l := by
  induction l with
  | nil => cases h
  | cons b bs ih =>
    rcases List.mem_cons.mp h with hb | hb
    · rw [← hb, objIds_cons_obj]
      exact List.mem_cons_self _ _
    · cases b with
      | obj kvsb => rw [objIds_cons_obj]; exact List.mem_cons_of_mem _ (ih hb)
      | null => exact ih hb
      | bool x => exact ih hb
      | num x => exact ih hb
      | str x => exact ih hb
      | arr x => exact ih hb

theorem deleteFilter_allobj (rid : String) :
    ∀ xs, (∀ x ∈ xs, isObjB x = true) →
      deleteFilter rid xs =
        .ok (xs.filter (fun x => !(decide (idOf x = some (.str rid))))) := by
  intro xs
  induction xs with
  | nil => intro _; rfl
  | cons x rest ih =>
    intro hobj
    have hx : ∃ kvs, x = .obj kvs := by
      have := hobj x (List.mem_cons_self _ _)
      cases x <;> simp [isObjB] at this <;> exact ⟨_, rfl⟩
    obtain ⟨kvs, rfl⟩ := hx
    show (match deleteFilter rid rest with
      | Except.error e => (Except.error e : Except PyError (List Json))
      | Except.ok ys =>
        if (objGet kvs "id").getD Json.null = Json.str rid then Except.ok ys
        else Except.ok (Json.obj kvs :: ys)) = _
    rw [ih (fun z hz => hobj z (List.mem_cons_of_mem _ hz))]
    dsimp only
    by_cases hm : objGet kvs "id" = some (.str rid)
    · have hm2 : (objGet kvs "id").getD Json.null = Json.str rid :=
        (getD_eq_str_iff kvs rid).mpr hm
      have hid : idOf (Json.obj kvs) = some (.str rid) := hm
      rw [if_pos hm2, List.filter_cons_of_neg (by simp [hid])]
    · have hm2 : ¬ (objGet kvs "id").getD Json.null = Json.str rid := by
        rw [getD_eq_str_iff]; exact hm
      have hid : ¬ idOf (Json.obj kvs) = some (.str rid) := hm
      rw [if_neg hm2, List.filter_cons_of_pos (by simp [hid])]

theorem filter_eq_removeFirst (rid : String) :
    ∀ xs, (∀ x ∈ xs, isObjB x = true) → pyNodupB (objIds xs) = true →
      xs.filter (fun x => !(decide (idOf x = some (.str rid)))) = removeFirstSpec rid xs := by
  intro xs
  induction xs with
  | nil => intro _ _; rfl
  | cons x rest ih =>
    intro hobj hnd
    have hx : ∃ kvs, x = .obj kvs := by
      have := hobj x (List.mem_cons_self _ _)
      cases x <;> simp [isObjB] at this <;> exact ⟨_, rfl⟩
    obtain ⟨kvs, rfl⟩ := hx
    by_cases hid : idOf (Json.obj kvs) = some (.str rid)
    · rw [List.filter_cons_of_neg (by simp [hid]), removeFirstSpec_cons, if_pos hid]
      have hgd : (objGet kvs "id").getD Json.null = Json.str rid :=
        (getD_eq_str_iff kvs rid).mpr hid
      have hnotin : pyMem (Json.str rid) (objIds rest) = false := by
        rw [objIds_cons_obj, hgd] at hnd
        simp only [pyNodupB, Bool.and_eq_true, Bool.not_eq_true'] at hnd
        exact hnd.1
      rw [pyMem_false_iff] at hnotin
      apply List.filter_eq_self.mpr
      intro a ha
      have hao : isObjB a = true := hobj a (List.mem_cons_of_mem _ ha)
      have hax : ∃ kvs2, a = .obj kvs2 := by
        cases a <;> simp [isObjB] at hao <;> exact ⟨_, rfl⟩
      obtain ⟨kvs2, rfl⟩ := hax
      simp only [Bool.not_eq_true', decide_eq_false_iff_not]
      intro hcon
      have hgd2 : (objGet kvs2 "id").getD Json.null = Json.str rid :=
        (getD_eq_str_iff kvs2 rid).mpr hcon
      have hmem := objIds_mem_of_mem kvs2 rest ha
      rw [hgd2] at hmem
      have := hnotin _ hmem
      rw [pyEq_refl] at this
      exact Bool.noConfusion this
    · rw [List.filter_cons_of_pos (by simp [hid]), removeFirstSpec_cons, if_neg hid]
      congr 1
      refine ih (fun z hz => hobj z (List.mem_cons_of_mem _ hz)) ?_
      rw [objIds_cons_obj] at hnd
      simp only [pyNodupB, Bool.and_eq_true] at hnd
      exact hnd.2

theorem removeFirstSpec_length (rid : String) :
    ∀ xs, presentIn xs rid = true → (removeFirstSpec rid xs).length + 1 = xs.length := by
  intro xs
  induction xs with
  | nil => intro h; simp [presentIn] at h
  | cons x rest ih =>
    intro h
    by_cases hid : idOf x = some (.str rid)
    · rw [removeFirstSpec_cons, if_pos hid]
      simp
    · rw [removeFirstSpec_cons, if_neg hid]
      have hp : presentIn rest rid = true := by
        rw [presentIn_cons] at h
        simpa [hid] using h
      simp only [List.length_cons]
      rw [← ih hp]

theorem removeFirstSpec_id (rid : String) :
    ∀ xs, presentIn xs rid = false → removeFirstSpec rid xs = xs := by
  intro xs
  induction xs with
  | nil => intro _; rfl
  | cons x rest ih =>
    intro h
    rw [presentIn_cons] at h
    simp only [Bool.or_eq_false_iff, decide_eq_false_iff_not] at h
    rw [removeFirstSpec_cons, if_neg h.1, ih h.2]

/-- C8 counterexample: the collection `["junk", {id: "x", ...}]` is
reachable and contains a record with id `"x"`, yet delete of `"x"` raises
`AttributeError` inside the filtering comprehension instead of removing
exactly one record. -/
theorem delete_nondict_raises :
    deleteBody junkColl "x" = .error (.pyError .attributeError) ∧
    ApiError.pyError .attributeError ≠ ApiError.notFound := ⟨rfl, by decide⟩

/-- C8 (amended): for every collection state whose entries are all dict
records with pairwise-distinct ids (as normalization guarantees): delete
with a present id removes exactly the first (and only) matching record —
the length drops by one; delete with an absent id reports the not-found
outcome and the collection is untouched.  With a non-dict entry present
the comprehension can instead raise `AttributeError`, and with duplicate
ids it would remove every match. -/
theorem delete_contract (xs : List Json) (rid : String)
    (hobj : ∀ x ∈ xs, isObjB x = true) (hnd : pyNodupB (objIds xs) = true) :
    deleteCheck xs rid = true := by
  unfold deleteCheck deleteBody
  rw [deleteFilter_allobj rid xs hobj]
  dsimp only
  rw [filter_eq_removeFirst rid xs hobj hnd]
  by_cases hp : presentIn xs rid = true
  · have hlen := removeFirstSpec_length rid xs hp
    rw [if_neg (by omega)]
    simp [hp, hlen]
  · have hfalse : presentIn xs rid = false := by simpa using hp
    rw [removeFirstSpec_id rid xs hfalse, if_pos rfl, hfalse]
    rfl

theorem delete_contract_witness :
    ((∀ x ∈ [Json.obj [("id", Json.str "a")], Json.obj [("id", Json.str "b")]],
        isObjB x = true) ∧
      pyNodupB (objIds [Json.obj [("id", Json.str "a")], Json.obj [("id", Json.str "b")]])
        = true) ∧
    deleteCheck [Json.obj [("id", Json.str "a")], Json.obj [("id", Json.str "b")]] "a"
      = true :=
  ⟨⟨by decide, by decide⟩,
    delete_contract [Json.obj [("id", Json.str "a")], Json.obj [("id", Json.str "b")]]
      "a" (by decide) (by decide)⟩

/-! ## Chord handling on create/update (C9) and in normalization (C10) -/

theorem scanReplace_mem (rid : String) (newRec : Json) :
    ∀ xs ys, scanReplace rid newRec xs = .ok (some ys) → newRec ∈ ys := by
  intro xs
  induction xs with
  | nil => intro ys h; simp [scanReplace] at h
  | cons x rest ih =>
    intro ys h
    cases x with
    | obj kvs =>
      by_cases hm : (objGet kvs "id").getD Json.null = Json.str rid
      · simp only [scanReplace, if_pos hm, Except.ok.injEq, Option.some.injEq] at h
        rw [← h]
        exact List.mem_cons_self _ _
      · simp only [scanReplace, if_neg hm] at h
        cases hr : scanReplace rid newRec rest with
        | error e => rw [hr] at h; exact absurd h (by simp)
        | ok o =>
          cases o with
          | none => rw [hr] at h; exact absurd h (by simp)
          | some ys2 =>
            rw [hr] at h
            simp only [Except.ok.injEq, Option.some.injEq] at h
            rw [← h]
            exact List.mem_cons_of_mem _ (ih ys2 hr)
    | null => simp [scanReplace] at h
    | bool b => simp [scanReplace] at h
    | num n => simp [scanReplace] at h
    | str s => simp [scanReplace] at h
    | arr l => simp [scanReplace] at h

theorem fixChord_ne_empty (s : String) : fixChord s ≠ "" := by
  unfold fixChord
  by_cases h : pyStrip s = ""
  · rw [if_pos h]; decide
  · rw [if_neg h]; exact h

/-- C9: on shape create and shape update, the stored and returned
record's `chord` is `payload.chord.strip()` when that is non-blank and
the fixed placeholder label when the payload chord is blank or
whitespace-only — never the blank string.  The created record is appended
to the `shapes` collection; the updated record is an element of the
written collection. -/
theorem shape_chord_never_blank (u : Nat → String) (d : Json) (q : ChordShapePayload)
    (xs : List Json) (sid : String) :
    fixChord q.chord
        = (if pyStrip q.chord = "" then placeholderChord else pyStrip q.chord) ∧
    fixChord q.chord ≠ "" ∧
    (match create_shape u d q with
      | .ok (out, r) => fieldOf "chord" r = some (.str (fixChord q.chord)) ∧
          (collOf out "shapes").getLast? = some r
      | .error _ => True) ∧
    (match update_shape_body xs sid q with
      | .ok (ys, r) => fieldOf "chord" r = some (.str (fixChord q.chord)) ∧ r ∈ ys
      | .error _ => True) := by
  refine ⟨rfl, fixChord_ne_empty q.chord, ?_, ?_⟩
  · unfold create_shape
    cases hgs : get_store u d with
    | error e => exact trivial
    | ok t =>
      obtain ⟨data, ch, k⟩ := t
      dsimp only
      cases data with
      | obj kvs =>
        dsimp only
        cases hsh : objGet kvs "shapes" with
        | none => exact trivial
        | some v =>
          cases v with
          | arr shapes =>
            dsimp only
            refine ⟨rfl, ?_⟩
            unfold collOf
            dsimp only
            rw [objGet_objSet_self]
            exact List.getLast?_concat _
          | null => exact trivial
          | bool b => exact trivial
          | num n => exact trivial
          | str s => exact trivial
          | obj o => exact trivial
      | null => exact trivial
      | bool b => exact trivial
      | num n => exact trivial
      | str s => exact trivial
      | arr l => exact trivial
  · unfold update_shape_body updateBody
    cases hsr : scanReplace sid (shapeDict sid (fixChord q.chord) q.position q.diagram) xs with
    | error e => exact trivial
    | ok o =>
      cases o with
      | none => exact trivial
      | some ys =>
        dsimp only
        exact ⟨rfl, scanReplace_mem _ _ xs ys hsr⟩

/-- C10: during a Normalizer pass, `normalize_shape_entry` sets the
`chord` field of a dict shape record to `chordTarget`: the
whitespace-trimmed Python string form of the stored value (an absent
field reading as `""`), or the placeholder label when that trimmed form
is empty.  The result is never the empty string: missing, null and
numeric chords all end as non-empty strings (`""` ↦ placeholder, `null` ↦
"None", `5` ↦ "5"). -/
theorem normalize_shape_entry_coerces (kvs : List (String × Json)) :
    objGet (normalize_shape_entry kvs).1 "chord" = some (.str (chordTarget kvs)) ∧
    chordTarget kvs ≠ "" ∧
    chordTarget [] = placeholderChord ∧
    chordTarget [("chord", Json.null)] = "None" ∧
    chordTarget [("chord", Json.num 5)] = "5" :=
  ⟨nse_chord kvs, chordTarget_ne_empty kvs, by decide, by decide, by decide⟩
